import Mathlib

/-!
A verification development for the krafna query engine (Rust).

The Rust source is shallowly embedded: each Lean definition mirrors one
function of the repository (`src/libs/executor.rs`, `src/libs/parser.rs`,
`src/libs/data_fetcher/markdown_fetcher.rs`, `src/libs/peekable_deque.rs`),
keeping its name and control flow.  Machine floats (`f64`) are modelled by
`ℚ`: every numeric value exercised by the statements below is a small
integer, on which `f64` arithmetic and comparison are exact.  External
crates (the `regex` engine, `chrono` dates, `pulldown_cmark` events) are
modelled by explicit parameters or by definitions whose doc comment starts
with `Modelled from the spec:`; the same marker is used for the few
`FieldValue` operations whose implementation file is absent from the
source snapshot (only their call sites in `executor.rs` are present).
-/

namespace Krafna

/-- The dynamically typed value used by the WHERE evaluator
(`FieldValue` in `src/libs/parser.rs`, extended with the `Null` and
`List` variants that `src/libs/executor.rs` pattern-matches on).
`Number` carries `ℚ` in place of `f64`. -/
inductive FieldValue where
  | null : FieldValue
  | string : String → FieldValue
  | number : ℚ → FieldValue
  | bool : Bool → FieldValue
  | list : List FieldValue → FieldValue
deriving Repr

mutual

/-- Structural equality of values (Rust `PartialEq` on `FieldValue`,
used by the `==` and `!=` operators and by list containment). -/
def FieldValue.beq : FieldValue → FieldValue → Bool
  | .null, .null => true
  | .string a, .string b => a == b
  | .number a, .number b => a == b
  | .bool a, .bool b => a == b
  | .list a, .list b => FieldValue.beqList a b
  | _, _ => false

/-- Element-wise equality of value lists. -/
def FieldValue.beqList : List FieldValue → List FieldValue → Bool
  | [], [] => true
  | x :: xs, y :: ys => FieldValue.beq x y && FieldValue.beqList xs ys
  | _, _ => false

end

/-- Modelled from the spec: the `PartialOrd` implementation of
`FieldValue` is absent from the source snapshot (only its call sites in
`executor.rs` remain).  §3 / §4.B of the spec: ordered comparison is
defined pairwise within the same scalar variant (numeric order,
lexicographic string order, `false < true`); cross-variant ordering is
undefined (`none`); lists compare as equal when element-wise equal and
are otherwise incomparable. -/
def FieldValue.pcmp : FieldValue → FieldValue → Option Ordering
  | .number a, .number b =>
      some (if a < b then .lt else if b < a then .gt else .eq)
  | .string a, .string b =>
      some (if a < b then .lt else if b < a then .gt else .eq)
  | .bool a, .bool b =>
      some (if a < b then .lt else if b < a then .gt else .eq)
  | .null, .null => some .eq
  | .list a, .list b => if FieldValue.beqList a b then some .eq else none
  | _, _ => none

/-- Modelled from the spec: `FieldValue::contains` is absent from the
source snapshot.  §4.B: a list contains `x` when some element equals `x`;
a string contains `x` when `x` is a string and a substring of it. -/
def FieldValue.contains (recv x : FieldValue) : Bool :=
  match recv, x with
  | .list l, x => l.any (fun e => FieldValue.beq e x)
  | .string s, .string xs => decide (List.IsInfix xs.toList s.toList)
  | _, _ => false

/-- Modelled from the spec: `FieldValue::add` is absent from the source
snapshot.  §4.B: numeric addition, string concatenation, list
concatenation; anything else is a type error. -/
def FieldValue.add : FieldValue → FieldValue → Except String FieldValue
  | .number a, .number b => .ok (.number (a + b))
  | .string a, .string b => .ok (.string (a ++ b))
  | .list a, .list b => .ok (.list (a ++ b))
  | _, _ => .error "Plus operator expects numeric, string or list operands!"

/-- Modelled from the spec: `FieldValue::subtract` is absent from the
source snapshot.  §4.B: numeric subtraction, or list set-difference
preserving left order; anything else is a type error. -/
def FieldValue.subtract : FieldValue → FieldValue → Except String FieldValue
  | .number a, .number b => .ok (.number (a - b))
  | .list a, .list b =>
      .ok (.list (a.filter (fun e => !(b.any (fun be => FieldValue.beq be e)))))
  | _, _ => .error "Minus operator expects numeric or list operands!"

/-- Modelled from the spec: `FieldValue::multiply` is absent from the
source snapshot.  §4.B: numeric only. -/
def FieldValue.multiply : FieldValue → FieldValue → Except String FieldValue
  | .number a, .number b => .ok (.number (a * b))
  | _, _ => .error "Multiply operator expects numeric operands!"

/-- Modelled from the spec: `FieldValue::divide` is absent from the
source snapshot.  §4.B: numeric only.  (`f64` division by zero yields an
infinity, which `ℚ` cannot represent; no statement below divides.) -/
def FieldValue.divide : FieldValue → FieldValue → Except String FieldValue
  | .number a, .number b => .ok (.number (a / b))
  | _, _ => .error "Divide operator expects numeric operands!"

/-- Modelled from the spec: `FieldValue::floor_divide` is absent from the
source snapshot.  §4.B: numeric floor division. -/
def FieldValue.floor_divide : FieldValue → FieldValue → Except String FieldValue
  | .number a, .number b => .ok (.number (⌊a / b⌋ : ℤ))
  | _, _ => .error "FloorDivide operator expects numeric operands!"

/-- Modelled from the spec: `FieldValue::power` is absent from the source
snapshot.  §4.B: numeric exponentiation; modelled exactly for integer
exponents (the only exact case of `f64::powf` on `ℚ`); no statement
below exponentiates. -/
def FieldValue.power : FieldValue → FieldValue → Except String FieldValue
  | .number a, .number b =>
      if b.den = 1 then .ok (.number (a ^ b.num)) else
        .error "Power with a non-integer exponent is not modelled!"
  | _, _ => .error "Power operator expects numeric operands!"

/-- The binary operators of the WHERE grammar (`Operator` in
`src/libs/parser.rs`; the `Like`/`NotLike` variants are matched by
`executor.rs`). -/
inductive Operator where
  | And | Or | In | Like | NotLike
  | Lt | Lte | Gt | Gte | Eq | Neq
  | Plus | Minus | Multiply | Divide | Power | FloorDivide
deriving DecidableEq, Repr

/-- A parsed function call (`Function` in `src/libs/parser.rs`). -/
structure Call where
  name : String
  args : List (Sum String FieldValue)
deriving Repr

/-- A function argument: `FunctionArg::FieldName` is `Sum.inl`,
`FunctionArg::FieldValue` is `Sum.inr` (see `Call.args`). -/
def FunctionArg := Sum String FieldValue

/-- One token of a WHERE expression in infix order (`ExpressionElement`
in `src/libs/parser.rs`). -/
inductive ExpressionElement where
  | OpenedBracket : ExpressionElement
  | ClosedBracket : ExpressionElement
  | Operator : Operator → ExpressionElement
  | FieldName : String → ExpressionElement
  | FieldValue : FieldValue → ExpressionElement
  | Function : Call → ExpressionElement
deriving Repr

/-- Sort direction (`OrderDirection` in `src/libs/parser.rs`). -/
inductive OrderDirection where
  | ASC | DESC
deriving DecidableEq, Repr

/-- One ORDER BY entry (`OrderByFieldOption` in `src/libs/parser.rs`). -/
structure OrderByFieldOption where
  field_name : String
  order_direction : OrderDirection
deriving Repr

/-- The dynamically typed record value (`gray_matter::Pod`).  `Float`
carries `ℚ` in place of `f64`; `Hash` is an association list standing
for the `HashMap` (only `get`-style access is exercised below, which is
insensitive to key order). -/
inductive Pod where
  | null : Pod
  | string : String → Pod
  | integer : Int → Pod
  | float : ℚ → Pod
  | boolean : Bool → Pod
  | array : List Pod → Pod
  | hash : List (String × Pod) → Pod
deriving Repr

/-- Rust `str::split('.')` on the character list (kernel-reducible
replacement for `String.splitOn`, same semantics for a one-character
separator). -/
def splitDotsGo (cur : List Char) : List Char → List String
  | [] => [String.mk cur.reverse]
  | c :: rest =>
      if c = '.' then String.mk cur.reverse :: splitDotsGo [] rest
      else splitDotsGo (c :: cur) rest

/-- Split a dotted path into its segments. -/
def splitDots (s : String) : List String := splitDotsGo [] s.toList

/-- Rust `str::to_uppercase` restricted to ASCII (kernel-reducible
replacement for `String.toUpper`; every string it is applied to below
is ASCII). -/
def toUpperAscii (s : String) : String := String.mk (s.toList.map Char.toUpper)

/-- Decimal digits of a natural number (kernel-reducible replacement
for `Nat.repr`; the fuel covers any number below 10^30). -/
def natDigitsGo (fuel : Nat) (n : Nat) (acc : List Char) : List Char :=
  match fuel with
  | 0 => acc
  | fuel + 1 =>
      let acc := Char.ofNat (48 + n % 10) :: acc
      if n < 10 then acc else natDigitsGo fuel (n / 10) acc

/-- Render a natural number in decimal. -/
def natToString (n : Nat) : String := String.mk (natDigitsGo 30 n [])

/-- Render an integer in decimal. -/
def intToString (n : Int) : String :=
  if n < 0 then "-" ++ natToString n.natAbs else natToString n.toNat

/-- Key lookup in a `Pod::Hash` (`HashMap::get`). -/
def hashGet (k : String) : List (String × Pod) → Option Pod
  | [] => none
  | (k2, v) :: rest => if k2 = k then some v else hashGet k rest

/-- `get_nested_pod` (`executor.rs`): walk the dot-separated path
through nested hashes; a non-hash step or a missing key yields `none`. -/
def get_nested_pod (field_name : String) (data : Pod) : Option Pod :=
  go (splitDots field_name) data
where
  go : List String → Pod → Option Pod
    | [], current => some current
    | key :: rest, current =>
        match current with
        | .hash h =>
            match hashGet key h with
            | some pod => go rest pod
            | none => none
        | _ => none

mutual

/-- `pod_array_to_field_value` (`executor.rs`): convert a `Pod` array to
a value list, silently dropping `Pod::Null` entries. -/
def pod_array_to_field_value : List Pod → List FieldValue
  | [] => []
  | .string s :: rest => .string s :: pod_array_to_field_value rest
  | .float q :: rest => .number q :: pod_array_to_field_value rest
  | .integer n :: rest => .number (n : ℚ) :: pod_array_to_field_value rest
  | .boolean b :: rest => .bool b :: pod_array_to_field_value rest
  | .array l :: rest =>
      .list (pod_array_to_field_value l) :: pod_array_to_field_value rest
  | .hash h :: rest => pod_hash_to_field_value h :: pod_array_to_field_value rest
  | .null :: rest => pod_array_to_field_value rest

/-- `pod_hash_to_field_value` (`executor.rs`): a hash-valued field is
rendered as its JSON string. -/
def pod_hash_to_field_value (h : List (String × Pod)) : FieldValue :=
  .string (jsonOfHash h)

/-- Modelled from the spec: `serde_json` rendering of a `Pod` (§4.B
`to_json`), with the association-list order standing for the `HashMap`
iteration order and numbers rendered only when integral.  No statement
below inspects this string. -/
def jsonOfPod : Pod → String
  | .null => "null"
  | .string s => "\"" ++ s ++ "\""
  | .integer n => intToString n
  | .float q => if q.den = 1 then intToString q.num else intToString q.num ++ "e" ++ natToString q.den
  | .boolean b => if b then "true" else "false"
  | .array l => "[" ++ jsonOfArray l ++ "]"
  | .hash h => "\x7b" ++ jsonOfHash' h ++ "\x7d"

def jsonOfArray : List Pod → String
  | [] => ""
  | [x] => jsonOfPod x
  | x :: rest => jsonOfPod x ++ "," ++ jsonOfArray rest

def jsonOfHash' : List (String × Pod) → String
  | [] => ""
  | [(k, v)] => "\"" ++ k ++ "\":" ++ jsonOfPod v
  | (k, v) :: rest => "\"" ++ k ++ "\":" ++ jsonOfPod v ++ "," ++ jsonOfHash' rest

def jsonOfHash (h : List (String × Pod)) : String :=
  jsonOfPod (.hash h)

end

/-- `get_field_value` (`executor.rs`): resolve a dotted field path in a
record to a `FieldValue`; missing paths resolve to `Null`. -/
def get_field_value (field_name : String) (data : Pod) : FieldValue :=
  match get_nested_pod field_name data with
  | some (.string s) => .string s
  | some (.float q) => .number q
  | some (.integer n) => .number (n : ℚ)
  | some (.boolean b) => .bool b
  | some (.array l) => .list (pod_array_to_field_value l)
  | some (.hash h) => pod_hash_to_field_value h
  | _ => .null

/-! ## Executor: operator application (`execute_operation` in `executor.rs`) -/

/-- An abstract regex engine standing for the `regex` crate:
`compile pat` is `some m` when `pat` is a valid pattern whose match test
is `m`, and `none` when `Regex::new` fails.  The LRU cache of
`executor.rs` only memoizes `compile` and is observationally inert. -/
def RegexEngine := String → Option (String → Bool)

/-- `execute_operation_like` (`executor.rs`): both operands must be
strings; an invalid pattern, or any non-string operand, yields `false`. -/
def execute_operation_like (compile : RegexEngine) (a b : FieldValue) : Bool :=
  match a, b with
  | .string a_str, .string b_str =>
      match compile b_str with
      | some m => m a_str
      | none => false
  | _, _ => false

/-- Rust `PartialOrd::lt` on `FieldValue`: `partial_cmp = Some(Less)`. -/
def FieldValue.ltb (a b : FieldValue) : Bool :=
  FieldValue.pcmp a b == some .lt

/-- Rust `PartialOrd::le` on `FieldValue`. -/
def FieldValue.leb (a b : FieldValue) : Bool :=
  FieldValue.pcmp a b == some .lt || FieldValue.pcmp a b == some .eq

/-- Rust `PartialOrd::gt` on `FieldValue`: `partial_cmp = Some(Greater)`. -/
def FieldValue.gtb (a b : FieldValue) : Bool :=
  FieldValue.pcmp a b == some .gt

/-- Rust `PartialOrd::ge` on `FieldValue`. -/
def FieldValue.geb (a b : FieldValue) : Bool :=
  FieldValue.pcmp a b == some .gt || FieldValue.pcmp a b == some .eq

/-- `execute_operation` (`executor.rs`): apply one binary operator to two
values; boolean operators demand boolean operands, comparison operators
return booleans, arithmetic defers to the value model. -/
def execute_operation (compile : RegexEngine) (op : Operator)
    (left right : FieldValue) : Except String FieldValue :=
  match op with
  | .And =>
      match left, right with
      | .bool l, .bool r => .ok (.bool (l && r))
      | _, _ => .error "AND operator expects operands to be bools!"
  | .Or =>
      match left, right with
      | .bool l, .bool r => .ok (.bool (l || r))
      | _, _ => .error "OR operator expects operands to be bools!"
  | .Like => .ok (.bool (execute_operation_like compile left right))
  | .NotLike => .ok (.bool (!execute_operation_like compile left right))
  | .In => .ok (.bool (FieldValue.contains right left))
  | .Lt => .ok (.bool (FieldValue.ltb left right))
  | .Lte => .ok (.bool (FieldValue.leb left right))
  | .Gt => .ok (.bool (FieldValue.gtb left right))
  | .Gte => .ok (.bool (FieldValue.geb left right))
  | .Eq => .ok (.bool (FieldValue.beq left right))
  | .Neq => .ok (.bool (!FieldValue.beq left right))
  | .Plus => FieldValue.add left right
  | .Minus => FieldValue.subtract left right
  | .Multiply => FieldValue.multiply left right
  | .Divide => FieldValue.divide left right
  | .Power => FieldValue.power left right
  | .FloorDivide => FieldValue.floor_divide left right

/-! ## Dates: model of the `chrono` crate (external to the repository) -/

/-- Modelled from the spec: `chrono::NaiveDateTime` as plain calendar
fields.  Leap-second representations (nanosecond >= 10^9) are not
modelled; no statement below touches them. -/
structure NaiveDateTime where
  year : Int
  month : Nat
  day : Nat
  hour : Nat
  minute : Nat
  second : Nat
  nano : Nat
deriving DecidableEq, Repr

/-- Proleptic Gregorian leap year. -/
def isLeapYear (y : Int) : Bool :=
  y % 4 == 0 && (y % 100 != 0 || y % 400 == 0)

/-- Days in a month of the proleptic Gregorian calendar. -/
def daysInMonth (y : Int) (m : Nat) : Nat :=
  if m == 2 then (if isLeapYear y then 29 else 28)
  else if m == 4 || m == 6 || m == 9 || m == 11 then 30
  else 31

/-- Smallest year representable by `chrono::NaiveDate`. -/
def chronoMinYear : Int := -262143

/-- Largest year representable by `chrono::NaiveDate`. -/
def chronoMaxYear : Int := 262142

/-- A valid `chrono` calendar date: in-range year, month 1..12, day
within the month. -/
def validDate (y : Int) (m d : Nat) : Bool :=
  chronoMinYear ≤ y && y ≤ chronoMaxYear &&
    1 ≤ m && m ≤ 12 && 1 ≤ d && d ≤ daysInMonth y m

/-- `chrono::Datelike::with_year`: replace the year, failing on an
out-of-range year or a day that does not exist in the new year
(February 29 of a non-leap year). -/
def NaiveDateTime.with_year (dt : NaiveDateTime) (y : Int) : Option NaiveDateTime :=
  if validDate y dt.month dt.day then some (mk y dt.month dt.day dt.hour dt.minute dt.second dt.nano) else none

/-- `chrono::Datelike::with_month`: replace the month, failing on an
invalid month or a day that does not exist in the new month. -/
def NaiveDateTime.with_month (dt : NaiveDateTime) (m : Nat) : Option NaiveDateTime :=
  if validDate dt.year m dt.day then some (mk dt.year m dt.day dt.hour dt.minute dt.second dt.nano) else none

/-- Days since 1970-01-01 of a proleptic Gregorian date
(Hinnant's `days_from_civil`). -/
def days_from_civil (y : Int) (m d : Nat) : Int :=
  let y' : Int := if m ≤ 2 then y - 1 else y
  let era : Int := Int.fdiv y' 400
  let yoe : Int := y' - era * 400
  let mp : Int := if m > 2 then (m : Int) - 3 else (m : Int) + 9
  let doy : Int := Int.fdiv (153 * mp + 2) 5 + (d : Int) - 1
  let doe : Int := yoe * 365 + Int.fdiv yoe 4 - Int.fdiv yoe 100 + doy
  era * 146097 + doe - 719468

/-- Proleptic Gregorian date of a day count since 1970-01-01
(Hinnant's `civil_from_days`). -/
def civil_from_days (z0 : Int) : Int × Nat × Nat :=
  let z : Int := z0 + 719468
  let era : Int := Int.fdiv z 146097
  let doe : Int := z - era * 146097
  let yoe : Int := Int.fdiv (doe - Int.fdiv doe 1460 + Int.fdiv doe 36524 - Int.fdiv doe 146096) 365
  let y : Int := yoe + era * 400
  let doy : Int := doe - (365 * yoe + Int.fdiv yoe 4 - Int.fdiv yoe 100)
  let mp : Int := Int.fdiv (5 * doy + 2) 153
  let d : Int := doy - Int.fdiv (153 * mp + 2) 5 + 1
  let m : Int := if mp < 10 then mp + 3 else mp - 9
  (if m ≤ 2 then y + 1 else y, m.toNat, d.toNat)

/-- Nanoseconds in a day. -/
def nsPerDay : Int := 86400 * 1000000000

/-- A `NaiveDateTime` as nanoseconds since 1970-01-01T00:00:00. -/
def NaiveDateTime.toNanos (dt : NaiveDateTime) : Int :=
  days_from_civil dt.year dt.month dt.day * nsPerDay +
    ((dt.hour * 3600 + dt.minute * 60 + dt.second) * 1000000000 + dt.nano : Nat)

/-- The `NaiveDateTime` of a nanosecond count since the epoch. -/
def nanosToDateTime (t : Int) : NaiveDateTime :=
  let day : Int := Int.fdiv t nsPerDay
  let rem : Nat := (t - day * nsPerDay).toNat
  let ymd := civil_from_days day
  let secs : Nat := rem / 1000000000
  mk ymd.1 ymd.2.1 ymd.2.2 (secs / 3600) (secs / 60 % 60) (secs % 60) (rem % 1000000000)
where mk := NaiveDateTime.mk

/-- Nanosecond count of `chrono::NaiveDateTime::MIN`. -/
def chronoMinNanos : Int := NaiveDateTime.toNanos (.mk chronoMinYear 1 1 0 0 0 0)

/-- Nanosecond count of `chrono::NaiveDateTime::MAX`. -/
def chronoMaxNanos : Int := NaiveDateTime.toNanos (.mk chronoMaxYear 12 31 23 59 59 999999999)

/-- `chrono::NaiveDateTime::checked_add_signed`: add a duration given in
nanoseconds, failing when the result leaves the representable range. -/
def NaiveDateTime.checked_add_signed (dt : NaiveDateTime) (nanos : Int) : Option NaiveDateTime :=
  let t := dt.toNanos + nanos
  if chronoMinNanos ≤ t && t ≤ chronoMaxNanos then some (nanosToDateTime t) else none

/-- Rust `f64 as i32` (saturating truncation), on the `ℚ` model. -/
def ratAsI32 (q : ℚ) : Int :=
  max (-2147483648) (min 2147483647 (Int.tdiv q.num (q.den : Int)))

/-- Rust `f64 as i64` (saturating truncation), on the `ℚ` model. -/
def ratAsI64 (q : ℚ) : Int :=
  max (-9223372036854775808) (min 9223372036854775807 (Int.tdiv q.num (q.den : Int)))

/-- Rust `i32 as u32` (wrap to 2^32), used on the computed month. -/
def i32AsU32 (n : Int) : Nat := (Int.emod n 4294967296).toNat

/-! ## Dates: parsing and formatting (model of `chrono` strftime) -/

/-- The calendar fields accumulated by a strftime parse. -/
structure ParsedFields where
  y : Option Int
  mo : Option Nat
  dy : Option Nat
  hh : Option Nat
  mi : Option Nat
  ss : Option Nat
deriving Repr

/-- Read further digits onto an accumulator, up to `w` more. -/
def takeDigitsAux (acc : Nat) : Nat → List Char → Nat × List Char
  | 0, rest => (acc, rest)
  | w + 1, c :: rest =>
      if c.isDigit then takeDigitsAux (acc * 10 + (c.toNat - 48)) w rest
      else (acc, c :: rest)
  | _ + 1, [] => (acc, [])

/-- Read up to `w` leading digits (at least one required). -/
def takeDigits (w : Nat) : List Char → Option (Nat × List Char)
  | c :: rest =>
      if c.isDigit then some (takeDigitsAux (c.toNat - 48) (w - 1) rest) else none
  | [] => none

/-- Modelled from the spec: `chrono` strftime parsing restricted to the
`%Y` `%m` `%d` `%H` `%M` `%S` directives and literal characters — the
only directives the statements below ever feed it.  An unsupported
directive or any mismatch fails the parse; the whole input must be
consumed. -/
def runFormat : List Char → List Char → ParsedFields → Option ParsedFields
  | [], [], acc => some acc
  | [], _ :: _, _ => none
  | '%' :: d :: fmt, input, acc =>
      if d = 'Y' then
        match input with
        | '-' :: rest =>
            match takeDigits 5 rest with
            | some (n, rest') => runFormat fmt rest' (mk (some (-(n : Int))) acc.mo acc.dy acc.hh acc.mi acc.ss)
            | none => none
        | _ =>
            match takeDigits 5 input with
            | some (n, rest') => runFormat fmt rest' (mk (some (n : Int)) acc.mo acc.dy acc.hh acc.mi acc.ss)
            | none => none
      else if d = 'm' then
        match takeDigits 2 input with
        | some (n, rest') => runFormat fmt rest' (mk acc.y (some n) acc.dy acc.hh acc.mi acc.ss)
        | none => none
      else if d = 'd' then
        match takeDigits 2 input with
        | some (n, rest') => runFormat fmt rest' (mk acc.y acc.mo (some n) acc.hh acc.mi acc.ss)
        | none => none
      else if d = 'H' then
        match takeDigits 2 input with
        | some (n, rest') => runFormat fmt rest' (mk acc.y acc.mo acc.dy (some n) acc.mi acc.ss)
        | none => none
      else if d = 'M' then
        match takeDigits 2 input with
        | some (n, rest') => runFormat fmt rest' (mk acc.y acc.mo acc.dy acc.hh (some n) acc.ss)
        | none => none
      else if d = 'S' then
        match takeDigits 2 input with
        | some (n, rest') => runFormat fmt rest' (mk acc.y acc.mo acc.dy acc.hh acc.mi (some n))
        | none => none
      else none
  | c :: fmt, i :: input, acc => if c = i then runFormat fmt input acc else none
  | _ :: _, [], _ => none
where mk := ParsedFields.mk

/-- `chrono::Parsed::to_naive_date`: a complete, valid calendar date. -/
def fieldsToDate (f : ParsedFields) : Option (Int × Nat × Nat) :=
  match f.y, f.mo, f.dy with
  | some y, some mo, some dy => if validDate y mo dy then some (y, mo, dy) else none
  | _, _, _ => none

/-- Valid wall-clock time fields (leap seconds not modelled). -/
def validTime (h m s : Nat) : Bool := h ≤ 23 && m ≤ 59 && s ≤ 59

/-- `chrono::Parsed::to_naive_datetime`: a complete date and time. -/
def fieldsToDateTime (f : ParsedFields) : Option NaiveDateTime :=
  match fieldsToDate f, f.hh, f.mi, f.ss with
  | some (y, mo, dy), some h, some m, some s =>
      if validTime h m s then some (.mk y mo dy h m s 0) else none
  | _, _, _, _ => none

/-- `NaiveDate::parse_from_str` over the modelled directives. -/
def parseDateOnly (input fmt : String) : Option (Int × Nat × Nat) :=
  match runFormat fmt.toList input.toList (.mk none none none none none none) with
  | some f => fieldsToDate f
  | none => none

/-- `NaiveDateTime::parse_from_str` over the modelled directives. -/
def parseDateTimeStr (input fmt : String) : Option NaiveDateTime :=
  match runFormat fmt.toList input.toList (.mk none none none none none none) with
  | some f => fieldsToDateTime f
  | none => none

/-- Modelled from the spec: `str::parse::<DateTime<Utc>>` (RFC 3339).
Restricted to a full date-time with a `Z`/`z` or `±hh:mm` offset and no
fractional seconds — the general case is never exercised below.  The
result is converted to UTC as `chrono` does. -/
def parseRfc3339Utc (input : String) : Option NaiveDateTime :=
  let cs := input.toList
  let n := cs.length
  if n ≥ 20 && (cs.getLast? == some 'Z' || cs.getLast? == some 'z') then
    match parseDateTimeStr (String.mk (cs.take (n - 1))) "%Y-%m-%dT%H:%M:%S" with
    | some dt => some dt
    | none => none
  else if n ≥ 25 && (cs.get? (n - 6) == some '+' || cs.get? (n - 6) == some '-') then
    match parseDateTimeStr (String.mk (cs.take (n - 6))) "%Y-%m-%dT%H:%M:%S",
          takeDigits 2 (cs.drop (n - 5)), cs.get? (n - 3), takeDigits 2 (cs.drop (n - 2)) with
    | some dt, some (oh, []), some ':', some (om, []) =>
        let offs : Int := (if cs.get? (n - 6) == some '-' then -1 else 1) * ((oh : Int) * 3600 + om * 60)
        (dt.checked_add_signed (-offs * 1000000000) : Option NaiveDateTime)
    | _, _, _, _ => none
  else none

/-- `parse_naive_datetime` (`executor.rs`): with a format, try date-only
then date-time under that format; otherwise try RFC 3339, then
`%Y-%m-%dT%H:%M:%S`, then `%Y-%m-%d` at midnight. -/
def parse_naive_datetime (input : String) (format : Option String) :
    Except String NaiveDateTime :=
  match format with
  | some fmt =>
      match parseDateOnly input fmt with
      | some (y, mo, dy) => .ok (.mk y mo dy 0 0 0 0)
      | none =>
          match parseDateTimeStr input fmt with
          | some dt => .ok dt
          | none => .error ("Invalid input: " ++ input)
  | none =>
      match parseRfc3339Utc input with
      | some dt => .ok dt
      | none =>
          match parseDateTimeStr input "%Y-%m-%dT%H:%M:%S" with
          | some dt => .ok dt
          | none =>
              match parseDateOnly input "%Y-%m-%d" with
              | some (y, mo, dy) => .ok (.mk y mo dy 0 0 0 0)
              | none => .error ("Invalid input: " ++ input)

/-- Left-pad a number with zeros to `w` digits. -/
def padNat (w n : Nat) : String :=
  let str := natToString n
  String.mk (List.replicate (w - str.length) '0') ++ str

/-- `chrono` formatting of `%Y` (sign plus at least four digits). -/
def formatYear (y : Int) : String :=
  if y < 0 then "-" ++ padNat 4 (-y).toNat else padNat 4 y.toNat

/-- Formatting with `DATE_FORMAT = "%Y-%m-%dT%H:%M:%S"` (`executor.rs`). -/
def formatDateTime (dt : NaiveDateTime) : String :=
  formatYear dt.year ++ "-" ++ padNat 2 dt.month ++ "-" ++ padNat 2 dt.day ++ "T" ++
    padNat 2 dt.hour ++ ":" ++ padNat 2 dt.minute ++ ":" ++ padNat 2 dt.second

/-! ## Executor: built-in functions (`executor.rs`) -/

/-- `execute_function_date_add` (`executor.rs`): `DATEADD(interval, n,
date [, format])`.  Arguments are extracted with the source's
field-or-literal rules, the date is parsed by `parse_naive_datetime`,
the interval name is matched upper-cased (note the source spells the
millisecond interval `MILISECOND`), and a `None` from the date
arithmetic becomes a range error. -/
def execute_function_date_add (func : Call) (data : Pod) : Except String FieldValue := do
  if func.args.length != 3 && func.args.length != 4 then
    throw "Function DATEADD expects 3 or 4 arguments!"
  let interval : String ←
    match func.args.get? 0 with
    | some (.inl field_name) =>
        match get_field_value field_name data with
        | .string interval => pure interval
        | _ => throw "Function DATEADD expects first argument to be an interval!"
    | some (.inr (.string interval)) => pure interval
    | _ => throw "Function DATEADD expects first argument to be an interval!"
  let number : ℚ ←
    match func.args.get? 1 with
    | some (.inl field_name) =>
        match get_field_value field_name data with
        | .number number => pure number
        | _ => throw "Function DATEADD expects second argument to be a number!"
    | some (.inr (.number number)) => pure number
    | _ => throw "Function DATEADD expects second argument to be a number!"
  let date_str : String ←
    match func.args.get? 2 with
    | some (.inl field_name) =>
        match get_field_value field_name data with
        | .string date_str => pure date_str
        | _ => throw "Function DATEADD expects third argument to be a date!"
    | some (.inr (.string date_str)) => pure date_str
    | _ => throw "Function DATEADD expects third argument to be a date!"
  let format_str : Option String ←
    match func.args.get? 3 with
    | some (.inl field_name) =>
        match get_field_value field_name data with
        | .string format_str => pure (some format_str)
        | .null => pure none
        | _ => throw "Function DATEADD expects fourth argument to be a format!"
    | some (.inr (.string format_str)) => pure (some format_str)
    | none => pure none
    | _ => throw "Function DATEADD expects fourth argument to be a format!"
  let naive_datetime ←
    match parse_naive_datetime date_str format_str with
    | .ok date => pure date
    | .error _ => throw "Function DATEADD did not succeed to parse the date!"
  let stepped : Option NaiveDateTime ←
    match toUpperAscii interval with
    | "YEAR" => pure (naive_datetime.with_year (naive_datetime.year + ratAsI32 number))
    | "MONTH" =>
        let months_to_add : Int := (naive_datetime.month : Int) + ratAsI32 number
        let years_to_add : Int := Int.tdiv (months_to_add - 1) 12
        let new_month : Int := Int.tmod (months_to_add - 1) 12 + 1
        pure ((naive_datetime.with_year (naive_datetime.year + years_to_add)).bind
          (fun d => d.with_month (i32AsU32 new_month)))
    | "WEEK" => pure (naive_datetime.checked_add_signed (ratAsI64 number * 7 * nsPerDay))
    | "DAY" => pure (naive_datetime.checked_add_signed (ratAsI64 number * nsPerDay))
    | "HOUR" => pure (naive_datetime.checked_add_signed (ratAsI64 number * 3600 * 1000000000))
    | "MINUTE" => pure (naive_datetime.checked_add_signed (ratAsI64 number * 60 * 1000000000))
    | "SECOND" => pure (naive_datetime.checked_add_signed (ratAsI64 number * 1000000000))
    | "MILISECOND" => pure (naive_datetime.checked_add_signed (ratAsI64 number * 1000000))
    | "MICROSECOND" => pure (naive_datetime.checked_add_signed (ratAsI64 number * 1000))
    | "NANOSECOND" => pure (naive_datetime.checked_add_signed (ratAsI64 number))
    | _ => throw "Function DATEADD expects first argument to be a valid interval!"
  match stepped with
  | some result_date => pure (.string (formatDateTime result_date))
  | none => throw "Function DATEADD expects second argument to be a number within interval range!"

/-- `execute_function_date` (`executor.rs`): `DATE(str [, format])`:
parse and re-format canonically. -/
def execute_function_date (func : Call) (data : Pod) : Except String FieldValue := do
  if func.args.length != 1 && func.args.length != 2 then
    throw "Function DATE expects 1 or 2 arguments!"
  let date_str : String ←
    match func.args.get? 0 with
    | some (.inl field_name) =>
        match get_field_value field_name data with
        | .string date_str => pure date_str
        | _ => throw "Function DATE expects first argument to be a date!"
    | some (.inr (.string date_str)) => pure date_str
    | _ => throw "Function DATE expects first argument to be a date!"
  let format_str : Option String ←
    match func.args.get? 1 with
    | some (.inl field_name) =>
        match get_field_value field_name data with
        | .string format_str => pure (some format_str)
        | .null => pure none
        | _ => throw "Function DATE expects second argument to be a format!"
    | some (.inr (.string format_str)) => pure (some format_str)
    | none => pure none
    | _ => throw "Function DATE expects second argument to be a format!"
  match parse_naive_datetime date_str format_str with
  | .ok naive_datetime => pure (.string (formatDateTime naive_datetime))
  | .error _ => throw "Function DATE did not succeed to parse the date!"

/-- `execute_function` (`executor.rs`): dispatch on the upper-cased
function name; only DATEADD and DATE exist. -/
def execute_function (func : Call) (data : Pod) : Except String FieldValue :=
  match toUpperAscii func.name with
  | "DATEADD" => execute_function_date_add func data
  | "DATE" => execute_function_date func data
  | _ => .error "TODO: Implement function execution!"

/-! ## Executor: shunting-yard expression evaluation (`executor.rs`) -/

/-- The operator precedence table inside `evaluate_expression`. -/
def operator_precedence : Operator → Nat
  | .Or => 0
  | .And => 1
  | .In | .Like | .NotLike | .Eq | .Neq | .Lt | .Lte | .Gt | .Gte => 2
  | .Plus | .Minus => 3
  | .Multiply | .Divide | .FloorDivide => 4
  | .Power => 5

/-- `evaluate_stack_operator` (`executor.rs`): pop an operator from the
stack and two operands (right, then left) from the queue, apply, and
push the result. -/
def evaluate_stack_operator (compile : RegexEngine) :
    List ExpressionElement → List FieldValue →
    Except String (List ExpressionElement × List FieldValue)
  | .Operator operator :: stack, right :: left :: queue => do
      let v ← execute_operation compile operator left right
      pure (stack, v :: queue)
  | .Operator _ :: _, _ =>
      .error "Expected operand on the queue, but found nothing!"
  | _, _ => .error "Expected operator on top of the stack!"

/-- The while-loop run for an incoming operator `op`: as long as the
stack's top is an operator of precedence >= `op`'s, pop and apply
(`evaluate_stack_operator` is unfolded by hand to make the recursion
structural on the stack). -/
def popGe (compile : RegexEngine) (op : Operator) :
    List ExpressionElement → List FieldValue →
    Except String (List ExpressionElement × List FieldValue)
  | .Operator last_op :: stack, queue =>
      if operator_precedence last_op ≥ operator_precedence op then
        match queue with
        | right :: left :: queue' =>
            match execute_operation compile last_op left right with
            | .ok v => popGe compile op stack (v :: queue')
            | .error e => .error e
        | _ => .error "Expected operand on the queue, but found nothing!"
      else .ok (.Operator last_op :: stack, queue)
  | stack, queue => .ok (stack, queue)

/-- The while-loop run for a closing bracket: pop and apply until the
matching opened bracket, which is then discarded. -/
def popUntilOpen (compile : RegexEngine) :
    List ExpressionElement → List FieldValue →
    Except String (List ExpressionElement × List FieldValue)
  | .OpenedBracket :: stack, queue => .ok (stack, queue)
  | .Operator op :: stack, queue =>
      match queue with
      | right :: left :: queue' =>
          match execute_operation compile op left right with
          | .ok v => popUntilOpen compile stack (v :: queue')
          | .error e => .error e
      | _ => .error "Expected operand on the queue, but found nothing!"
  | stack, queue => do
      let _ ← evaluate_stack_operator compile stack queue
      .error "Expected operator on top of the stack!"

/-- The end-of-input loop: pop and apply until the stack is empty. -/
def popAll (compile : RegexEngine) :
    List ExpressionElement → List FieldValue →
    Except String (List ExpressionElement × List FieldValue)
  | [], queue => .ok ([], queue)
  | .Operator op :: stack, queue =>
      match queue with
      | right :: left :: queue' =>
          match execute_operation compile op left right with
          | .ok v => popAll compile stack (v :: queue')
          | .error e => .error e
      | _ => .error "Expected operand on the queue, but found nothing!"
  | stack, queue => do
      let _ ← evaluate_stack_operator compile stack queue
      .error "Expected operator on top of the stack!"

/-- One iteration of the `for element in expression` loop of
`evaluate_expression` (`executor.rs`). -/
def evalStep (compile : RegexEngine) (data : Pod)
    (state : List ExpressionElement × List FieldValue) :
    ExpressionElement → Except String (List ExpressionElement × List FieldValue)
  | .OpenedBracket => .ok (.OpenedBracket :: state.1, state.2)
  | .FieldName field_name => .ok (state.1, get_field_value field_name data :: state.2)
  | .FieldValue field_value => .ok (state.1, field_value :: state.2)
  | .Function func => do
      let v ← execute_function func data
      pure (state.1, v :: state.2)
  | .Operator op => do
      let (stack', queue') ← popGe compile op state.1 state.2
      pure (.Operator op :: stack', queue')
  | .ClosedBracket => popUntilOpen compile state.1 state.2

/-- `evaluate_expression` (`executor.rs`): shunting-yard evaluation of
the infix token sequence against one record.  The stack and queue are
lists with the head as the top. -/
def evaluate_expression (compile : RegexEngine)
    (expression : List ExpressionElement) (data : Pod) :
    Except String FieldValue := do
  let (stack, queue) ← expression.foldlM (evalStep compile data) ([], [])
  let (_, queue) ← popAll compile stack queue
  match queue with
  | [v] => pure v
  | _ => throw "Expected exactly one element on the queue!"

/-! ## Executor: WHERE, ORDER BY, SELECT (`executor.rs`) -/

/-- A regex engine on which every pattern is invalid; any engine works
for the statements that never reach a LIKE operator. -/
def noRegex : RegexEngine := fun _ => none

/-- The retain predicate of `execute_where` (`executor.rs`): keep a
record exactly when the expression evaluates to boolean true on it. -/
def whereKeeps (compile : RegexEngine) (expression : List ExpressionElement)
    (pod : Pod) : Bool :=
  match evaluate_expression compile expression pod with
  | .ok (.bool b) => b
  | _ => false

/-- `execute_where` (`executor.rs`): an empty expression (or empty data)
retains everything; otherwise a dry run against the first record
surfaces errors, then records evaluating to boolean `true` are kept. -/
def execute_where (compile : RegexEngine)
    (expression : List ExpressionElement) (data : List Pod) :
    Except String (List Pod) := do
  match expression, data with
  | [], _ => pure data
  | _, [] => pure data
  | _, first :: _ =>
      let _ ← evaluate_expression compile expression first
      pure (data.filter (whereKeeps compile expression))

/-- The per-field comparison inside the `sort_by` closure of
`execute_order_by` (`executor.rs`), before the direction is applied:
Null on the left sorts Less, then Null on the right sorts Greater, then
the value ordering with incomparable pairs as Equal. -/
def orderByFieldCmp (field_name : String) (a b : Pod) : Ordering :=
  let fv_a := get_field_value field_name a
  let fv_b := get_field_value field_name b
  if fv_a matches .null then .lt
  else if fv_b matches .null then .gt
  else (FieldValue.pcmp fv_a fv_b).getD .eq

/-- The full `sort_by` comparator of `execute_order_by` (`executor.rs`):
the first field whose comparison is non-Equal decides, inverted when
that field's direction is DESC. -/
def orderByCmp : List OrderByFieldOption → Pod → Pod → Ordering
  | [], _, _ => .eq
  | f :: rest, a, b =>
      let comparison := orderByFieldCmp f.field_name a b
      if comparison ≠ .eq then
        if f.order_direction = .ASC then comparison
        else if comparison = .lt then .gt
        else .lt
      else orderByCmp rest a b

/-- One step of Rust's insertion sort: the new element `x` moves from
the right end of the already-sorted prefix towards the left while
`is_less(x, left neighbour)`.  The prefix is kept reversed (head =
rightmost element). -/
def insertRev (lt : α → α → Bool) (x : α) : List α → List α
  | [] => [x]
  | y :: ys => if lt x y then y :: insertRev lt x ys else x :: y :: ys

/-- Model of `slice::sort_by`: Rust's stable sort runs exactly this
insertion sort on short slices (every concrete list below), and for a
comparator that is a total order it agrees with any stable sort. -/
def sortByModel (cmp : α → α → Ordering) (l : List α) : List α :=
  (l.foldl (fun acc x => insertRev (fun a b => cmp a b == .lt) x acc) []).reverse

/-- `execute_order_by` (`executor.rs`): stable-sort the records by the
ORDER BY comparator. -/
def execute_order_by (fields : List OrderByFieldOption) (data : List Pod) : List Pod :=
  sortByModel (orderByCmp fields) data

/-- `execute_select` (`executor.rs`): keep only the top-level keys that
head some selected dotted path. -/
def execute_select (fields : List String) (data : List Pod) : List Pod :=
  let check_fields := fields.map (fun s =>
    match splitDots s with
    | before :: _ :: _ => before
    | _ => s)
  data.map (fun pod =>
    match pod with
    | .hash h => .hash (h.filter (fun kv => check_fields.contains kv.1))
    | p => p)

/-! ## Concrete data for the end-to-end WHERE scenario (§8 scenario 2) -/

/-- A record with four numeric fields, as the ingester would produce it
from front-matter `field1..field4`. -/
def mkFourFieldRecord (a b c d : ℚ) : Pod :=
  .hash [("field1", .float a), ("field2", .float b),
         ("field3", .float c), ("field4", .float d)]

/-- The five records of §8 scenario 2. -/
def scenarioRecords : List Pod :=
  [mkFourFieldRecord 4 2 3 4, mkFourFieldRecord 1 2 2 3,
   mkFourFieldRecord 1 1 3 4, mkFourFieldRecord 1 1 2 4,
   mkFourFieldRecord 1 1 3 3]

/-- The parsed form of
`field1 == 4 OR field2 == 1 AND (field3 == 2 OR field4 == 3)`. -/
def scenarioExpression : List ExpressionElement :=
  [.FieldName "field1", .Operator .Eq, .FieldValue (.number 4),
   .Operator .Or,
   .FieldName "field2", .Operator .Eq, .FieldValue (.number 1),
   .Operator .And,
   .OpenedBracket,
   .FieldName "field3", .Operator .Eq, .FieldValue (.number 2),
   .Operator .Or,
   .FieldName "field4", .Operator .Eq, .FieldValue (.number 3),
   .ClosedBracket]

end Krafna

namespace Krafna

/-! ## Theorems -/

/-- C1: WHERE evaluation respects operator precedence: AND binds
tighter than OR, comparisons tighter than AND, arithmetic tighter than
comparisons; an incoming operator first pops and applies every stacked
operator of greater or equal precedence (`popGe`) before being pushed;
and on the five records of §8 scenario 2 the filter
`field1 == 4 OR field2 == 1 AND (field3 == 2 OR field4 == 3)` retains
exactly records 1, 4 and 5, in that order. -/
theorem where_respects_operator_precedence :
    (operator_precedence .Or < operator_precedence .And
      ∧ operator_precedence .And < operator_precedence .Eq
      ∧ operator_precedence .Eq < operator_precedence .Plus
      ∧ operator_precedence .Plus < operator_precedence .Multiply)
    ∧ (∀ (compile : RegexEngine) (data : Pod) (op : Operator)
        (stack : List ExpressionElement) (queue : List FieldValue),
        evalStep compile data (stack, queue) (.Operator op) =
          (popGe compile op stack queue).map
            (fun sq => (.Operator op :: sq.1, sq.2)))
    ∧ ∀ (compile : RegexEngine),
        execute_where compile scenarioExpression scenarioRecords =
          .ok [mkFourFieldRecord 4 2 3 4, mkFourFieldRecord 1 1 2 4,
               mkFourFieldRecord 1 1 3 3] := by
  refine ⟨by decide, ?_, fun compile => rfl⟩
  intro compile data op stack queue
  simp only [evalStep]
  cases popGe compile op stack queue <;> rfl

/-- C4: with an empty WHERE expression every record is retained
unchanged; with a non-empty expression and at least one record, an
error from the dry run against the first record fails the whole query
with that error, and otherwise exactly the records whose evaluation
yields boolean true are retained, in their original relative order
(`List.filter` keeps the input order). -/
theorem where_dry_run_and_filter :
    (∀ (compile : RegexEngine) (data : List Pod),
        execute_where compile [] data = .ok data)
    ∧ (∀ (compile : RegexEngine) (e : ExpressionElement)
        (expr : List ExpressionElement) (first : Pod) (rest : List Pod)
        (err : String),
        evaluate_expression compile (e :: expr) first = .error err →
        execute_where compile (e :: expr) (first :: rest) = .error err)
    ∧ (∀ (compile : RegexEngine) (e : ExpressionElement)
        (expr : List ExpressionElement) (first : Pod) (rest : List Pod)
        (v : FieldValue),
        evaluate_expression compile (e :: expr) first = .ok v →
        execute_where compile (e :: expr) (first :: rest) =
          .ok ((first :: rest).filter (whereKeeps compile (e :: expr)))) := by
  refine ⟨fun compile data => by cases data <;> rfl, ?_, ?_⟩
  · intro compile e expr first rest err h
    simp only [execute_where, h, Except.bind]
    rfl
  · intro compile e expr first rest v h
    simp only [execute_where, h, Except.bind]
    rfl

/-- A record whose `flag` front-matter key is boolean true. -/
def flagTrueRecord : Pod := .hash [("flag", .boolean true)]

/-- A record whose `flag` front-matter key is numeric, on which
`true AND flag` is a type error. -/
def flagNumberRecord : Pod := .hash [("flag", .float 7)]

/-- The parsed form of `true AND flag`. -/
def flagExpression : List ExpressionElement :=
  [.FieldValue (.bool true), .Operator .And, .FieldName "flag"]

theorem where_dry_run_and_filter_witness :
    evaluate_expression noRegex flagExpression flagTrueRecord = .ok (.bool true)
    ∧ execute_where noRegex flagExpression [flagTrueRecord, flagNumberRecord] =
        .ok ([flagTrueRecord, flagNumberRecord].filter (whereKeeps noRegex flagExpression))
    ∧ evaluate_expression noRegex
        [.Operator .And] flagTrueRecord = .error "Expected operand on the queue, but found nothing!"
    ∧ execute_where noRegex [.Operator .And] [flagTrueRecord] =
        .error "Expected operand on the queue, but found nothing!" :=
  ⟨rfl,
   where_dry_run_and_filter.2.2 noRegex (.FieldValue (.bool true))
     [.Operator .And, .FieldName "flag"] flagTrueRecord [flagNumberRecord]
     (.bool true) rfl,
   rfl,
   where_dry_run_and_filter.2.1 noRegex (.Operator .And) [] flagTrueRecord []
     "Expected operand on the queue, but found nothing!" rfl⟩

/-- C10: once the dry run on the first record has succeeded, the query
never fails: the result is exactly the boolean-true filter of the
records, and any record whose evaluation errors or yields a non-boolean
is silently absent from it. -/
theorem where_bad_record_silently_dropped :
    ∀ (compile : RegexEngine) (expr : List ExpressionElement)
      (first : Pod) (rest : List Pod) (v : FieldValue),
      evaluate_expression compile expr first = .ok v →
      ∃ out, execute_where compile expr (first :: rest) = .ok out ∧
        out = (first :: rest).filter (whereKeeps compile expr) ∧
        ∀ r ∈ first :: rest,
          (∀ b, evaluate_expression compile expr r ≠ .ok (.bool b)) → r ∉ out := by
  intro compile expr first rest v h
  match expr with
  | [] =>
      rw [show evaluate_expression compile [] first =
        Except.error "Expected exactly one element on the queue!" from rfl] at h
      cases h
  | e :: expr =>
      refine ⟨(first :: rest).filter (whereKeeps compile (e :: expr)), ?_, rfl, ?_⟩
      · simp only [execute_where, h, Except.bind]
        rfl
      · intro r _ hnb
        intro hmem
        have hk : whereKeeps compile (e :: expr) r = true :=
          (List.mem_filter.mp hmem).2
        unfold whereKeeps at hk
        revert hk
        match hev : evaluate_expression compile (e :: expr) r with
        | .ok (.bool b) => exact fun _ => hnb b hev
        | .ok .null | .ok (.string _) | .ok (.number _) | .ok (.list _) => simp
        | .error _ => simp

theorem where_bad_record_silently_dropped_witness :
    evaluate_expression noRegex flagExpression flagTrueRecord = .ok (.bool true)
    ∧ (∀ b, evaluate_expression noRegex flagExpression flagNumberRecord ≠ .ok (.bool b))
    ∧ ∃ out, execute_where noRegex flagExpression [flagTrueRecord, flagNumberRecord] = .ok out ∧
        out = [flagTrueRecord, flagNumberRecord].filter (whereKeeps noRegex flagExpression) ∧
        ∀ r ∈ [flagTrueRecord, flagNumberRecord],
          (∀ b, evaluate_expression noRegex flagExpression r ≠ .ok (.bool b)) → r ∉ out := by
  refine ⟨rfl, ?_, ?_⟩
  · intro b h
    rw [show evaluate_expression noRegex flagExpression flagNumberRecord =
      Except.error "AND operator expects operands to be bools!" from rfl] at h
    cases h
  · exact where_bad_record_silently_dropped noRegex flagExpression flagTrueRecord
      [flagNumberRecord] (.bool true) rfl
/-- C8: for string operands, when the right-hand pattern fails to
compile, LIKE evaluates to boolean false and NOT LIKE to boolean true;
neither raises an error. -/
theorem like_invalid_pattern_is_false :
    ∀ (compile : RegexEngine) (a b : String),
      compile b = none →
      execute_operation compile .Like (.string a) (.string b) = .ok (.bool false)
      ∧ execute_operation compile .NotLike (.string a) (.string b) = .ok (.bool true) := by
  intro compile a b h
  constructor <;> simp [execute_operation, execute_operation_like, h]

theorem like_invalid_pattern_is_false_witness :
    noRegex "[val.*" = none
    ∧ (execute_operation noRegex .Like (.string "smurph") (.string "[val.*") =
        .ok (.bool false)
      ∧ execute_operation noRegex .NotLike (.string "smurph") (.string "[val.*") =
        .ok (.bool true)) :=
  ⟨rfl, like_invalid_pattern_is_false noRegex "smurph" "[val.*" rfl⟩

/-! ## Lemmas about the insertion-sort model -/

/-- Closed form of one insertion step: the new element settles behind
the elements it passes. -/
theorem insertRev_eq (lt : α → α → Bool) (x : α) (acc : List α) :
    insertRev lt x acc =
      acc.takeWhile (fun y => lt x y) ++ x :: acc.dropWhile (fun y => lt x y) := by
  induction acc with
  | nil => rfl
  | cons y ys ih =>
      by_cases h : lt x y
      · simp [insertRev, h, List.takeWhile_cons, List.dropWhile_cons, ih]
      · simp [insertRev, h, List.takeWhile_cons, List.dropWhile_cons]

/-- Membership in an insertion step. -/
theorem mem_insertRev {lt : α → α → Bool} {x a : α} {acc : List α} :
    a ∈ insertRev lt x acc ↔ a = x ∨ a ∈ acc := by
  rw [insertRev_eq]
  constructor
  · intro h
    rcases List.mem_append.mp h with h | h
    · exact Or.inr ((List.takeWhile_sublist _).mem h)
    · rcases List.mem_cons.mp h with h | h
      · exact Or.inl h
      · exact Or.inr ((List.dropWhile_sublist _).mem h)
  · intro h
    rcases h with h | h
    · exact List.mem_append.mpr (Or.inr (List.mem_cons.mpr (Or.inl h)))
    · have h2 : a ∈ acc.takeWhile (fun y => lt x y) ++ acc.dropWhile (fun y => lt x y) := by
        rwa [List.takeWhile_append_dropWhile]
      rcases List.mem_append.mp h2 with h3 | h3
      · exact List.mem_append.mpr (Or.inl h3)
      · exact List.mem_append.mpr (Or.inr (List.mem_cons.mpr (Or.inr h3)))

/-- An insertion step never reorders the elements already present. -/
theorem Sublist.insertRev_of {l acc : List α} (lt : α → α → Bool) (x : α)
    (h : l.Sublist acc) : l.Sublist (insertRev lt x acc) := by
  rw [insertRev_eq]
  have h2 : l.Sublist (acc.takeWhile (fun y => lt x y) ++ acc.dropWhile (fun y => lt x y)) := by
    rwa [List.takeWhile_append_dropWhile]
  exact h2.trans (List.Sublist.append_left (List.sublist_cons_self _ _) _)

/-- An element the newcomer does not pass stays on its left. -/
theorem insertRev_keeps_left {lt : α → α → Bool} {x r : α} {acc : List α}
    (hr : r ∈ acc) (hlt : lt x r = false) :
    [x, r].Sublist (insertRev lt x acc) := by
  rw [insertRev_eq]
  have hmem : r ∈ acc.takeWhile (fun y => lt x y) ++ acc.dropWhile (fun y => lt x y) := by
    rwa [List.takeWhile_append_dropWhile]
  rcases List.mem_append.mp hmem with h | h
  · have := List.mem_takeWhile_imp h
    simp [hlt] at this
  · have h1 : [x, r].Sublist (x :: acc.dropWhile (fun y => lt x y)) :=
      List.cons_sublist_cons.mpr (List.singleton_sublist.mpr h)
    exact h1.trans (List.sublist_append_right _ _)

/-- Where a pair inside an insertion step can come from: both elements
were already adjacent-ordered in the accumulator, or one of them is the
newcomer with the other in the passed (takeWhile) or kept (dropWhile)
part. -/
theorem insertRev_pair_cases {lt : α → α → Bool} {x a b : α} {acc : List α}
    (h : [a, b].Sublist (insertRev lt x acc)) :
    [a, b].Sublist acc
      ∨ (b = x ∧ a ∈ acc ∧ lt x a = true)
      ∨ (a = x ∧ ∃ hd, lt x hd = false ∧ (b = hd ∨ [hd, b].Sublist acc)) := by
  induction acc with
  | nil =>
      exfalso
      have := h.length_le
      simp [insertRev] at this
  | cons y ys ih =>
      by_cases hxy : lt x y
      · rw [show insertRev lt x (y :: ys) = y :: insertRev lt x ys by
          simp [insertRev, hxy]] at h
        rcases List.sublist_cons_iff.mp h with h2 | ⟨r, hr, hrs⟩
        · rcases ih h2 with h3 | ⟨hb, ha, hl⟩ | ⟨ha, hd, hhd, hb⟩
          · exact Or.inl (h3.trans (List.sublist_cons_self _ _))
          · exact Or.inr (Or.inl ⟨hb, List.mem_cons.mpr (Or.inr ha), hl⟩)
          · refine Or.inr (Or.inr ⟨ha, hd, hhd, ?_⟩)
            rcases hb with hb | hb
            · exact Or.inl hb
            · exact Or.inr (hb.trans (List.sublist_cons_self _ _))
        · obtain ⟨ha, h5⟩ := List.cons_eq_cons.mp hr
          have hbs : [b].Sublist (insertRev lt x ys) := by rw [h5]; exact hrs
          rcases mem_insertRev.mp (List.singleton_sublist.mp hbs) with hb | hb
          · exact Or.inr (Or.inl ⟨hb, List.mem_cons.mpr (Or.inl ha), ha ▸ hxy⟩)
          · refine Or.inl ?_
            rw [ha]
            exact List.cons_sublist_cons.mpr (List.singleton_sublist.mpr hb)
      · rw [show insertRev lt x (y :: ys) = x :: y :: ys by
          simp [insertRev, hxy]] at h
        rcases List.sublist_cons_iff.mp h with h2 | ⟨r, hr, hrs⟩
        · exact Or.inl h2
        · obtain ⟨ha, h5⟩ := List.cons_eq_cons.mp hr
          have hbs : [b].Sublist (y :: ys) := by rw [h5]; exact hrs
          refine Or.inr (Or.inr ⟨ha, y, Bool.of_not_eq_true hxy, ?_⟩)
          rcases List.mem_cons.mp (List.singleton_sublist.mp hbs) with hb | hb
          · exact Or.inl hb
          · exact Or.inr (List.cons_sublist_cons.mpr (List.singleton_sublist.mpr hb))

/-- The head of the kept (dropWhile) part fails the predicate. -/
theorem dropWhile_head_false (p : α → Bool) (l : List α) :
    ∀ h t, l.dropWhile p = h :: t → p h = false := by
  induction l with
  | nil => intro h t hyp; cases hyp
  | cons c cs ih =>
      intro h t hyp
      rw [List.dropWhile_cons] at hyp
      by_cases hc : p c
      · rw [if_pos hc] at hyp; exact ih h t hyp
      · rw [if_neg hc] at hyp
        injection hyp with h1 _
        rw [← h1]
        exact Bool.of_not_eq_true hc

/-- Elements of the input end up in the folded accumulator. -/
theorem mem_foldl_insertRev (lt : α → α → Bool) (l : List α) :
    ∀ (acc : List α) (a : α), (a ∈ acc ∨ a ∈ l) →
      a ∈ l.foldl (fun acc x => insertRev lt x acc) acc := by
  induction l with
  | nil => intro acc a h; simpa using h
  | cons y ys ih =>
      intro acc a h
      apply ih
      rcases h with h | h
      · exact Or.inl (mem_insertRev.mpr (Or.inr h))
      · rcases List.mem_cons.mp h with h | h
        · exact Or.inl (mem_insertRev.mpr (Or.inl h))
        · exact Or.inr h

/-- Pairs established in the accumulator survive the rest of the fold. -/
theorem sublist_foldl_insertRev (lt : α → α → Bool) (l : List α) :
    ∀ (acc : List α) (s : List α), s.Sublist acc →
      s.Sublist (l.foldl (fun acc x => insertRev lt x acc) acc) := by
  induction l with
  | nil => intro acc s h; simpa using h
  | cons y ys ih =>
      intro acc s h
      exact ih _ _ (Sublist.insertRev_of lt y h)

/-- Elements with a front-sorting key (under ASC, the null-field
records) never end up behind others in the accumulator: if every keyed
newcomer passes everyone (`hA1`) and no unkeyed newcomer passes a keyed
element (`hA2`), then in the folded accumulator a keyed element is
never followed by an unkeyed one. -/
theorem foldl_insertRev_key_front (lt : α → α → Bool) (key : α → Bool)
    (hA1 : ∀ z y, key z = true → lt z y = true)
    (hA2 : ∀ z y, key z = false → key y = true → lt z y = false) :
    ∀ (l acc : List α),
      (∀ a b, [a, b].Sublist acc → key a = true → key b = true) →
      ∀ a b, [a, b].Sublist (l.foldl (fun acc x => insertRev lt x acc) acc) →
        key a = true → key b = true := by
  intro l
  induction l with
  | nil => intro acc hInv a b h ha; exact hInv a b h ha
  | cons z zs ih =>
      intro acc hInv
      apply ih
      intro a b hpair ha
      rcases insertRev_pair_cases hpair with h3 | ⟨hb, hmem, hlt⟩ | ⟨haz, hd, hhd, _⟩
      · exact hInv a b h3 ha
      · subst hb
        cases hkz : key b with
        | true => rfl
        | false => rw [hA2 b a hkz ha] at hlt; cases hlt
      · subst haz
        rw [hA1 a hd ha] at hhd
        cases hhd
/-- Under DESC the null-field records sort to the back: if no keyed
newcomer passes anyone (`hD1`) and every unkeyed newcomer passes every
keyed element (`hD2`), then in the folded accumulator an element
followed by a keyed one is itself keyed. -/
theorem foldl_insertRev_key_back (lt : α → α → Bool) (key : α → Bool)
    (hD1 : ∀ z y, key z = true → lt z y = false)
    (hD2 : ∀ z y, key z = false → key y = true → lt z y = true) :
    ∀ (l acc : List α),
      (∀ a b, [a, b].Sublist acc → key b = true → key a = true) →
      ∀ a b, [a, b].Sublist (l.foldl (fun acc x => insertRev lt x acc) acc) →
        key b = true → key a = true := by
  intro l
  induction l with
  | nil => intro acc hInv a b h hb; exact hInv a b h hb
  | cons z zs ih =>
      intro acc hInv
      apply ih
      intro a b hpair hb
      rcases insertRev_pair_cases hpair with h3 | ⟨hbz, hmem, hlt⟩ | ⟨haz, hd, hhd, hbd⟩
      · exact hInv a b h3 hb
      · subst hbz
        rw [hD1 b a hb] at hlt
        cases hlt
      · subst haz
        cases hkz : key a with
        | true => rfl
        | false =>
            exfalso
            have hkhd : key hd = false := by
              cases hkhd : key hd with
              | false => rfl
              | true => rw [hD2 a hd hkz hkhd] at hhd; cases hhd
            rcases hbd with hbd | hbd
            · rw [hbd, hkhd] at hb; cases hb
            · rw [hInv hd b hbd hb] at hkhd; cases hkhd

/-- Whether a record's value at a field is Null (missing paths included). -/
def isNullOn (field_name : String) (r : Pod) : Bool :=
  match get_field_value field_name r with
  | .null => true
  | _ => false

theorem isNullOn_iff {field_name : String} {r : Pod} :
    isNullOn field_name r = true ↔ get_field_value field_name r = .null := by
  unfold isNullOn
  cases get_field_value field_name r <;> simp

/-- A value compared with itself is never strictly ordered: the
comparator's `unwrap_or(Equal)` yields `Equal`. -/
theorem pcmp_self_getD (a : FieldValue) : (FieldValue.pcmp a a).getD .eq = .eq := by
  cases a with
  | null => rfl
  | string s => simp [FieldValue.pcmp, lt_irrefl]
  | number q => simp [FieldValue.pcmp, lt_irrefl]
  | bool b => simp [FieldValue.pcmp, lt_irrefl]
  | list l => by_cases h : FieldValue.beqList l l <;> simp [FieldValue.pcmp, h]

/-- Per-field comparison of two records with equal, non-null values is
`Equal`. -/
theorem orderByFieldCmp_eq_of_equal {f : String} {a b : Pod}
    (hnn : get_field_value f a ≠ .null)
    (heq : get_field_value f a = get_field_value f b) :
    orderByFieldCmp f a b = .eq := by
  unfold orderByFieldCmp
  rw [← heq]
  cases h : get_field_value f a with
  | null => exact absurd h hnn
  | string s => simpa [h] using pcmp_self_getD (.string s)
  | number q => simpa [h] using pcmp_self_getD (.number q)
  | bool b2 => simpa [h] using pcmp_self_getD (.bool b2)
  | list l => simpa [h] using pcmp_self_getD (.list l)

/-- Two records with equal non-null values on every ORDER BY field
compare `Equal` under the full comparator. -/
theorem orderByCmp_eq_of_equal :
    ∀ (fields : List OrderByFieldOption) (a b : Pod),
      (∀ f ∈ fields, get_field_value f.field_name a ≠ .null ∧
        get_field_value f.field_name a = get_field_value f.field_name b) →
      orderByCmp fields a b = .eq := by
  intro fields
  induction fields with
  | nil => intro a b _; rfl
  | cons f rest ih =>
      intro a b h
      obtain ⟨hnn, heq⟩ := h f (List.mem_cons.mpr (Or.inl rfl))
      have hf := orderByFieldCmp_eq_of_equal hnn heq
      unfold orderByCmp
      rw [hf]
      simpa using ih a b (fun g hg => h g (List.mem_cons.mpr (Or.inr hg)))

/-- Under ASC, a null-field newcomer passes every element. -/
theorem asc_lt_of_null {f : String} {z y : Pod} (hz : isNullOn f z = true) :
    (orderByCmp [⟨f, .ASC⟩] z y == Ordering.lt) = true := by
  have h := isNullOn_iff.mp hz
  simp only [orderByCmp, orderByFieldCmp, h]
  rfl

/-- Under ASC, a non-null newcomer never passes a null-field element. -/
theorem asc_not_lt_of_null_right {f : String} {z y : Pod}
    (hz : isNullOn f z = false) (hy : isNullOn f y = true) :
    (orderByCmp [⟨f, .ASC⟩] z y == Ordering.lt) = false := by
  have hy' := isNullOn_iff.mp hy
  unfold orderByCmp orderByFieldCmp
  cases h : get_field_value f z with
  | null => rw [isNullOn_iff.mpr h] at hz; cases hz
  | string s => (simp [h, hy']; rfl)
  | number q => (simp [h, hy']; rfl)
  | bool b => (simp [h, hy']; rfl)
  | list l => (simp [h, hy']; rfl)

/-- Under DESC, a null-field newcomer passes nobody. -/
theorem desc_not_lt_of_null {f : String} {z y : Pod} (hz : isNullOn f z = true) :
    (orderByCmp [⟨f, .DESC⟩] z y == Ordering.lt) = false := by
  have h := isNullOn_iff.mp hz
  simp only [orderByCmp, orderByFieldCmp, h]
  rfl

/-- Under DESC, a non-null newcomer passes every null-field element. -/
theorem desc_lt_of_null_right {f : String} {z y : Pod}
    (hz : isNullOn f z = false) (hy : isNullOn f y = true) :
    (orderByCmp [⟨f, .DESC⟩] z y == Ordering.lt) = true := by
  have hy' := isNullOn_iff.mp hy
  unfold orderByCmp orderByFieldCmp
  cases h : get_field_value f z with
  | null => rw [isNullOn_iff.mpr h] at hz; cases hz
  | string s => (simp [h, hy']; rfl)
  | number q => (simp [h, hy']; rfl)
  | bool b => (simp [h, hy']; rfl)
  | list l => (simp [h, hy']; rfl)

/-- C2: the ORDER BY comparator returns Less when the left value is
Null, otherwise Greater when the right value is Null, otherwise the
value-model ordering with incomparable pairs as Equal; DESC inverts the
non-Equal outcome while Equal falls through; the first non-Equal field
decides; consequently, under ASC nothing non-null ever precedes a
null-valued record (nulls first), and under DESC nothing null ever
precedes a non-null record (non-nulls first). -/
theorem order_by_comparator_spec :
    (∀ (f : String) (a b : Pod), get_field_value f a = .null →
        orderByFieldCmp f a b = .lt)
    ∧ (∀ (f : String) (a b : Pod), get_field_value f a ≠ .null →
        get_field_value f b = .null → orderByFieldCmp f a b = .gt)
    ∧ (∀ (f : String) (a b : Pod), get_field_value f a ≠ .null →
        get_field_value f b ≠ .null →
        orderByFieldCmp f a b =
          (FieldValue.pcmp (get_field_value f a) (get_field_value f b)).getD .eq)
    ∧ (∀ (f : OrderByFieldOption) (rest : List OrderByFieldOption) (a b : Pod),
        orderByFieldCmp f.field_name a b = .eq →
        orderByCmp (f :: rest) a b = orderByCmp rest a b)
    ∧ (∀ (f : String) (rest : List OrderByFieldOption) (a b : Pod)
        (c : Ordering), orderByFieldCmp f a b = c → c ≠ .eq →
        orderByCmp (⟨f, .ASC⟩ :: rest) a b = c)
    ∧ (∀ (f : String) (rest : List OrderByFieldOption) (a b : Pod)
        (c : Ordering), orderByFieldCmp f a b = c → c ≠ .eq →
        orderByCmp (⟨f, .DESC⟩ :: rest) a b = if c = .lt then .gt else .lt)
    ∧ (∀ (f : String) (l : List Pod) (x y : Pod),
        [x, y].Sublist (execute_order_by [⟨f, .ASC⟩] l) →
        isNullOn f y = true → isNullOn f x = true)
    ∧ (∀ (f : String) (l : List Pod) (x y : Pod),
        [x, y].Sublist (execute_order_by [⟨f, .DESC⟩] l) →
        isNullOn f x = true → isNullOn f y = true) := by
  refine ⟨?_, ?_, ?_, ?_, ?_, ?_, ?_, ?_⟩
  · intro f a b h
    simp only [orderByFieldCmp, h]
    rfl
  · intro f a b hna hb
    unfold orderByFieldCmp
    cases ha : get_field_value f a with
    | null => exact absurd ha hna
    | string s => (simp only [ha, hb]; rfl)
    | number q => (simp only [ha, hb]; rfl)
    | bool b2 => (simp only [ha, hb]; rfl)
    | list l2 => (simp only [ha, hb]; rfl)
  · intro f a b hna hnb
    unfold orderByFieldCmp
    cases ha : get_field_value f a with
    | null => exact absurd ha hna
    | string s =>
        cases hb : get_field_value f b with
        | null => exact absurd hb hnb
        | _ => (simp only [ha, hb]; rfl)
    | number q =>
        cases hb : get_field_value f b with
        | null => exact absurd hb hnb
        | _ => (simp only [ha, hb]; rfl)
    | bool b2 =>
        cases hb : get_field_value f b with
        | null => exact absurd hb hnb
        | _ => (simp only [ha, hb]; rfl)
    | list l2 =>
        cases hb : get_field_value f b with
        | null => exact absurd hb hnb
        | _ => (simp only [ha, hb]; rfl)
  · intro f rest a b h
    rw [orderByCmp]
    simp [h]
  · intro f rest a b c h hc
    rw [orderByCmp]
    simp [h, hc]
  · intro f rest a b c h hc
    rw [orderByCmp]
    cases c with
    | eq => exact absurd rfl hc
    | lt => simp [h]
    | gt => simp [h]
  · intro f l x y hpair hy
    have h1 := hpair.reverse
    rw [show ([x, y] : List Pod).reverse = [y, x] from rfl] at h1
    simp only [execute_order_by, sortByModel, List.reverse_reverse] at h1
    exact foldl_insertRev_key_front _ (isNullOn f)
      (fun z y2 hz => asc_lt_of_null hz)
      (fun z y2 hz hy2 => asc_not_lt_of_null_right hz hy2)
      l [] (fun a b hab _ => by
        exfalso; have := hab.length_le; simp at this)
      y x h1 hy
  · intro f l x y hpair hx
    have h1 := hpair.reverse
    rw [show ([x, y] : List Pod).reverse = [y, x] from rfl] at h1
    simp only [execute_order_by, sortByModel, List.reverse_reverse] at h1
    exact foldl_insertRev_key_back _ (isNullOn f)
      (fun z y2 hz => desc_not_lt_of_null hz)
      (fun z y2 hz hy2 => desc_lt_of_null_right hz hy2)
      l [] (fun a b hab _ => by
        exfalso; have := hab.length_le; simp at this)
      y x h1 hx

/-- A record without the ORDER BY field `f`. -/
def noFieldRecord1 : Pod := .hash [("id", .float 1)]

/-- Another record without the ORDER BY field `f`. -/
def noFieldRecord2 : Pod := .hash [("id", .float 2)]

theorem order_by_comparator_spec_witness :
    (get_field_value "f" noFieldRecord1 = .null ∧
      orderByFieldCmp "f" noFieldRecord1 noFieldRecord2 = .lt)
    ∧ ([noFieldRecord2, noFieldRecord1].Sublist
        (execute_order_by [⟨"f", .ASC⟩] [noFieldRecord1, noFieldRecord2])
      ∧ isNullOn "f" noFieldRecord1 = true
      ∧ isNullOn "f" noFieldRecord2 = true) := by
  refine ⟨⟨rfl, order_by_comparator_spec.1 "f" noFieldRecord1 noFieldRecord2 rfl⟩,
    ?_, rfl, rfl⟩
  rw [show execute_order_by [⟨"f", .ASC⟩] [noFieldRecord1, noFieldRecord2] =
    [noFieldRecord2, noFieldRecord1] from rfl]

/-- C3 (amended): ORDER BY is stable for records that the comparator
ties: two records with equal, non-null values on every ORDER BY field
keep their input order.  (Records that are both Null on some ORDER BY
field compare Less, not Equal, and may be reordered — see the
counterexample.) -/
theorem order_by_stable_on_nonnull_equal :
    ∀ (fields : List OrderByFieldOption) (u v w : List Pod) (x y : Pod),
      (∀ f ∈ fields, get_field_value f.field_name x ≠ .null ∧
          get_field_value f.field_name x = get_field_value f.field_name y) →
      [x, y].Sublist (execute_order_by fields (u ++ x :: v ++ y :: w)) := by
  intro fields u v w x y h
  have hcmp : orderByCmp fields y x = .eq := by
    apply orderByCmp_eq_of_equal
    intro f hf
    refine ⟨?_, ((h f hf).2).symm⟩
    rw [← (h f hf).2]
    exact (h f hf).1
  have hlt : (fun a b => orderByCmp fields a b == Ordering.lt) y x = false := by
    simp only [hcmp]
    rfl
  unfold execute_order_by sortByModel
  suffices hyx : [y, x].Sublist
      ((u ++ x :: v ++ y :: w).foldl
        (fun acc z => insertRev (fun a b => orderByCmp fields a b == .lt) z acc) []) by
    exact hyx.reverse
  rw [List.foldl_append, List.foldl_cons, List.foldl_append, List.foldl_cons]
  apply sublist_foldl_insertRev
  apply insertRev_keeps_left
  · exact mem_foldl_insertRev _ v _ x (Or.inl (mem_insertRev.mpr (Or.inl rfl)))
  · exact hlt

/-- C3 counterexample: two distinct records both lacking the ORDER BY
field — hence equal (both Null) on it — are swapped by an ASC sort, so
the sort is not stable on such pairs. -/
theorem order_by_stable_counterexample :
    get_field_value "f" noFieldRecord1 = .null
    ∧ get_field_value "f" noFieldRecord2 = .null
    ∧ execute_order_by [⟨"f", .ASC⟩] [noFieldRecord1, noFieldRecord2] =
        [noFieldRecord2, noFieldRecord1]
    ∧ (execute_order_by [⟨"f", .ASC⟩] [noFieldRecord1, noFieldRecord2]).map
        (get_field_value "id") = [.number 2, .number 1]
    ∧ [noFieldRecord1, noFieldRecord2].map (get_field_value "id") =
        [.number 1, .number 2]
    ∧ FieldValue.number 2 ≠ FieldValue.number 1 := by
  refine ⟨rfl, rfl, rfl, rfl, rfl, ?_⟩
  intro h
  injection h with h2
  norm_num at h2

theorem order_by_stable_on_nonnull_equal_witness :
    (∀ f ∈ ([⟨"id", .ASC⟩] : List OrderByFieldOption),
        get_field_value f.field_name noFieldRecord1 ≠ .null ∧
        get_field_value f.field_name noFieldRecord1 =
          get_field_value f.field_name noFieldRecord1)
    ∧ [noFieldRecord1, noFieldRecord1].Sublist
        (execute_order_by [⟨"id", .ASC⟩]
          ([] ++ noFieldRecord1 :: [] ++ noFieldRecord1 :: [])) := by
  have harg : ∀ f ∈ ([⟨"id", .ASC⟩] : List OrderByFieldOption),
      get_field_value f.field_name noFieldRecord1 ≠ .null ∧
      get_field_value f.field_name noFieldRecord1 =
        get_field_value f.field_name noFieldRecord1 := by
    intro f hf
    rcases List.mem_cons.mp hf with hf | hf
    · subst hf
      refine ⟨?_, rfl⟩
      intro h
      cases h
    · cases hf
  exact ⟨harg, order_by_stable_on_nonnull_equal [⟨"id", .ASC⟩] [] [] []
    noFieldRecord1 noFieldRecord1 harg⟩

/-- A literal-argument DATEADD call. -/
def dateAddCall (interval : String) (n : ℚ) (date : String) : Call :=
  ⟨"DATEADD", [.inr (.string interval), .inr (.number n), .inr (.string date)]⟩

/-- C6: the code evaluated at the failing input.  `DATEADD` rejects the
interval name `MILLISECOND` of the spec (in any case) because the
source's match arm spells it `MILISECOND`, which in turn succeeds; the
month arithmetic does roll 13 months past a January date into February
of the next-plus-one year, case-insensitively; and an out-of-range
result (year beyond chrono's maximum) fails the call instead of
wrapping. -/
theorem dateadd_millisecond_spelling_bug :
    execute_function_date_add (dateAddCall "MILLISECOND" 1 "2021-01-01") (.hash [])
      = .error "Function DATEADD expects first argument to be a valid interval!"
    ∧ execute_function_date_add (dateAddCall "millisecond" 1 "2021-01-01") (.hash [])
      = .error "Function DATEADD expects first argument to be a valid interval!"
    ∧ execute_function_date_add (dateAddCall "MILISECOND" 1 "2021-01-01") (.hash [])
      = .ok (.string "2021-01-01T00:00:00")
    ∧ execute_function_date_add (dateAddCall "milisecond" 1 "2021-01-01") (.hash [])
      = .ok (.string "2021-01-01T00:00:00")
    ∧ execute_function_date_add (dateAddCall "month" 13 "2021-01-15") (.hash [])
      = .ok (.string "2022-02-15T00:00:00")
    ∧ execute_function_date_add (dateAddCall "week" 2 "2021-01-01") (.hash [])
      = .ok (.string "2021-01-15T00:00:00")
    ∧ execute_function_date_add (dateAddCall "YEAR" 1000000 "2021-01-01") (.hash [])
      = .error "Function DATEADD expects second argument to be a number within interval range!"
    := ⟨rfl, rfl, rfl, rfl, rfl, rfl, rfl⟩

/-! ## Markdown ingestion: code-block extraction
(`parse_markdown_content` in `src/libs/data_fetcher/markdown_fetcher.rs`) -/

/-- Strip leading and trailing whitespace (Rust `str::trim`). -/
def trimChars (l : List Char) : List Char :=
  ((l.dropWhile Char.isWhitespace).reverse.dropWhile Char.isWhitespace).reverse

/-- The transformation applied to a collected code-block body: every
newline becomes a space, then the result is trimmed. -/
def cleanCode (s : String) : String :=
  String.mk (trimChars (s.toList.map (fun c => if c = '\n' then ' ' else c)))

/-- Modelled from the spec: the `pulldown_cmark` events that touch the
code-block state of `parse_markdown_content`.  A fenced code block
starts with `startCodeBlock (some lang)`, an indented one with
`startCodeBlock none`; `other` stands for every event the code-block
state machine ignores. -/
inductive MdEvent where
  | startCodeBlock : Option String → MdEvent
  | endCodeBlock : MdEvent
  | text : String → MdEvent
  | other : MdEvent
deriving Repr

/-- The code-block fields of the parser state of
`parse_markdown_content` (the title/link/task fields never feed back
into these). -/
structure MdCodeState where
  in_code_block : Bool
  current_code : String
  current_code_lang : String
  code_blocks : List String
deriving Repr

/-- One event of the `for event in parser` loop of
`parse_markdown_content`, restricted to the code-block state:
`Start(CodeBlock)` sets the flag and, for a fenced block, the language;
`End(CodeBlock)` collects the body when the language equals
`"krafna"` (case-sensitive `==`) and clears body and language;
`Text` accumulates while inside a code block. -/
def mdCodeStep (st : MdCodeState) : MdEvent → MdCodeState
  | .startCodeBlock (some lang) =>
      { st with in_code_block := true, current_code_lang := lang }
  | .startCodeBlock none => { st with in_code_block := true }
  | .endCodeBlock =>
      { in_code_block := false,
        current_code := "",
        current_code_lang := "",
        code_blocks :=
          if st.current_code_lang == "krafna"
          then st.code_blocks ++ [cleanCode st.current_code]
          else st.code_blocks }
  | .text s =>
      if st.in_code_block then { st with current_code := st.current_code ++ s }
      else st
  | .other => st

/-- The `code_blocks` output of `parse_markdown_content` over an event
stream. -/
def parse_markdown_code_blocks (events : List MdEvent) : List String :=
  (events.foldl mdCodeStep ⟨false, "", "", []⟩).code_blocks

/-- A well-formed Markdown document as `pulldown_cmark` delivers it:
code blocks arrive as a balanced start/texts/end group. -/
inductive MdItem where
  | codeBlock : Option String → List String → MdItem
  | plainText : String → MdItem
  | otherItem : MdItem

/-- The event stream of one document item. -/
def itemEvents : MdItem → List MdEvent
  | .codeBlock k texts => .startCodeBlock k :: (texts.map .text ++ [.endCodeBlock])
  | .plainText s => [.text s]
  | .otherItem => [.other]

/-- The event stream of a document. -/
def docEvents (doc : List MdItem) : List MdEvent := (doc.map itemEvents).flatten

/-- What one item contributes to the collected snippets. -/
def itemContribution : MdItem → List String
  | .codeBlock (some lang) texts =>
      if lang = "krafna" then [cleanCode (String.join texts)] else []
  | _ => []

/-- The spec's description of the collection (§4.D code blocks): the
bodies of exactly the fenced blocks whose tag is `krafna`
(case-sensitive), newline-mapped and trimmed, in document order. -/
def specCodeBlocks (doc : List MdItem) : List String :=
  (doc.map itemContribution).flatten

theorem string_foldl_append :
    ∀ (ts : List String) (t : String),
      List.foldl (fun r s => r ++ s) t ts =
        t ++ List.foldl (fun r s => r ++ s) "" ts := by
  intro ts
  induction ts with
  | nil => intro t; simp
  | cons u us ih =>
      intro t
      simp only [List.foldl_cons, String.empty_append]
      rw [ih (t ++ u), ih u]
      simp [String.append_assoc]

/-- `String.join` of a cons. -/
theorem string_join_cons (t : String) (ts : List String) :
    String.join (t :: ts) = t ++ String.join ts := by
  simp only [String.join, List.foldl_cons, String.empty_append]
  exact string_foldl_append ts t

theorem mdCode_text_accum :
    ∀ (texts : List String) (c lg : String) (B : List String),
      List.foldl mdCodeStep ⟨true, c, lg, B⟩ (texts.map .text) =
        ⟨true, c ++ String.join texts, lg, B⟩ := by
  intro texts
  induction texts with
  | nil =>
      intro c lg B
      simp [String.join]
  | cons t ts ih =>
      intro c lg B
      simp only [List.map_cons, List.foldl_cons, mdCodeStep, if_true]
      rw [ih]
      rw [string_join_cons, ← String.append_assoc]

theorem mdCode_item_run :
    ∀ (item : MdItem) (B : List String),
      List.foldl mdCodeStep ⟨false, "", "", B⟩ (itemEvents item) =
        ⟨false, "", "", B ++ itemContribution item⟩ := by
  intro item B
  cases item with
  | plainText s => simp [itemEvents, mdCodeStep, itemContribution]
  | otherItem => simp [itemEvents, mdCodeStep, itemContribution]
  | codeBlock k texts =>
      cases k with
      | none =>
          simp only [itemEvents, List.foldl_cons, mdCodeStep, List.foldl_append]
          rw [mdCode_text_accum]
          simp [mdCodeStep, itemContribution]
      | some lang =>
          simp only [itemEvents, List.foldl_cons, mdCodeStep, List.foldl_append]
          rw [mdCode_text_accum]
          by_cases hl : lang = "krafna"
          · simp [mdCodeStep, itemContribution, hl]
          · simp [mdCodeStep, itemContribution, hl]

/-- C9: over every balanced event stream, the collected code blocks are
exactly the bodies of the fenced blocks whose language tag equals
`"krafna"` case-sensitively, newline-replaced and trimmed; concretely,
`Krafna`, `KRAFNA` and indented blocks are excluded, and a `krafna`
body keeps interior text with newlines turned into single spaces and
outer whitespace removed. -/
theorem krafna_code_blocks_case_sensitive :
    (∀ doc : List MdItem,
      parse_markdown_code_blocks (docEvents doc) = specCodeBlocks doc)
    ∧ parse_markdown_code_blocks
        [.startCodeBlock (some "krafna"), .text "SELECT a\nFROM b  \n",
         .endCodeBlock,
         .startCodeBlock (some "Krafna"), .text "x", .endCodeBlock,
         .startCodeBlock (some "KRAFNA"), .text "y", .endCodeBlock,
         .startCodeBlock none, .text "z", .endCodeBlock] =
        ["SELECT a FROM b"] := by
  constructor
  · intro doc
    suffices h : ∀ (items : List MdItem) (B : List String),
        List.foldl mdCodeStep ⟨false, "", "", B⟩ (docEvents items) =
          ⟨false, "", "", B ++ specCodeBlocks items⟩ by
      unfold parse_markdown_code_blocks
      rw [h doc []]
      simp
    intro items
    induction items with
    | nil => intro B; simp [docEvents, specCodeBlocks, String.join]
    | cons item rest ih =>
        intro B
        simp only [docEvents, List.map_cons, List.flatten_cons, List.foldl_append]
        rw [mdCode_item_run]
        have := ih (B ++ itemContribution item)
        simp only [docEvents] at this
        rw [this]
        simp [specCodeBlocks, List.append_assoc]
  · rfl

/-! ## Parser (`src/libs/parser.rs` and `src/libs/peekable_deque.rs`)

Every parser mirrors one `Query::parse_*` function.  The
`PeekableDeque` cursor is a character vector with an index; each parser
returns its result together with the cursor it leaves behind (the Rust
functions mutate the cursor in place, also on failure).  Character
classes (`is_alphabetic`, `is_numeric`, whitespace) are modelled on
ASCII, which covers every statement below. -/

/-- `PeekableDeque<char>`: an immutable character vector with an index. -/
structure Cursor where
  deque : List Char
  index : Nat
deriving Repr

/-- Build the cursor of a query string (`PeekableDeque::from_iter`). -/
def Cursor.fromString (s : String) : Cursor := ⟨s.toList, 0⟩

/-- `peek`: the current character, or none at the end. -/
def Cursor.peek (c : Cursor) : Option Char := c.deque.get? c.index

/-- The characters from the current position on. -/
def Cursor.rest (c : Cursor) : List Char := c.deque.drop c.index

/-- `next`: advance by one. -/
def Cursor.next (c : Cursor) : Cursor := ⟨c.deque, c.index + 1⟩

/-- Advance by `n`. -/
def Cursor.advance (c : Cursor) (n : Nat) : Cursor := ⟨c.deque, c.index + n⟩

/-- `back(n)`: rewind, saturating at zero. -/
def Cursor.back (c : Cursor) (n : Nat) : Cursor := ⟨c.deque, c.index - n⟩

/-- `end`: the index has reached the end. -/
def Cursor.atEnd (c : Cursor) : Bool := c.deque.length ≤ c.index

/-- A parse result together with the cursor left behind.  On failure
paths whose cursor position is observable only through the diagnostic
display (which is not modelled), the cursor is returned unmoved. -/
def PRes (α : Type) : Type := Except String α × Cursor

/-- The characters the field-name loop keeps consuming (alphanumeric,
underscore, minus). -/
def isIdentChar (ch : Char) : Bool := ch.isAlphanum || ch == '_' || ch == '-'

/-- The identifier characters following the first. -/
def identTail : List Char → List Char
  | [] => []
  | ch :: rest => if isIdentChar ch then ch :: identTail rest else []

/-- `parse_field_name`: a letter or underscore followed by identifier
characters. -/
def parse_field_name (c : Cursor) : PRes String :=
  match c.rest with
  | [] => (.error "Field name expected. nothing found", c)
  | ch :: rest' =>
      if ch.isAlpha || ch == '_' then
        let tail := identTail rest'
        (.ok (String.mk (ch :: tail)), c.advance (1 + tail.length))
      else (.error "Field name expected!", c)

/-- `parse_bool` is unimplemented in the source (`TODO`), always an
error. -/
def parse_bool (c : Cursor) : PRes Bool :=
  (.error "TODO: implement parse_bool", c)

/-- Scan for the closing quote: the body and the consumed count, or
none when the query ends first. -/
def scanString (q : Char) : List Char → Option (List Char × Nat)
  | [] => none
  | ch :: rest =>
      if ch == q then some ([], 1)
      else match scanString q rest with
        | some (s, n) => some (ch :: s, n + 1)
        | none => none

/-- `parse_string`: a single- or double-quoted string (no escapes). -/
def parse_string (c : Cursor) : PRes String :=
  match c.rest with
  | [] => (.error "Expected a quote symbol, but found nothing!", c)
  | ch :: rest' =>
      if ch == '"' || ch == '\'' then
        match scanString ch rest' with
        | some (s, n) => (.ok (String.mk s), c.advance (1 + n))
        | none => (.error "Query ended before string was closed!", c.advance c.rest.length)
      else (.error "Expected a quote symbol!", c)

/-- The digits-and-dot loop of `parse_number`: consumed characters, or
an error on a second decimal point. -/
def numBody (hasDec : Bool) : List Char → Except String (List Char)
  | [] => .ok []
  | ch :: rest =>
      if ch == '.' then
        if hasDec then .error "Can not have multiple decimal signs"
        else
          match numBody true rest with
          | .ok s => .ok (ch :: s)
          | .error e => .error e
      else if !ch.isDigit then .ok []
      else
        match numBody hasDec rest with
        | .ok s => .ok (ch :: s)
        | .error e => .error e

/-- Decimal digits to a natural number. -/
def digitsToNat : List Char → Nat :=
  List.foldl (fun acc ch => acc * 10 + (ch.toNat - 48)) 0

/-- The `f64` value of a decimal literal, on the `ℚ` model (exact where
`f64` parsing is exact; every literal below is a small integer). -/
def ratOfDecimal (neg : Bool) (body : List Char) : ℚ :=
  let ip := body.takeWhile (fun ch => ch != '.')
  let fp := (body.dropWhile (fun ch => ch != '.')).drop 1
  let mag : ℚ := (digitsToNat ip : ℚ) + (digitsToNat fp : ℚ) / ((10 : ℚ) ^ fp.length)
  if neg then -mag else mag

/-- `parse_number`: an optional minus, digits, and at most one decimal
point. -/
def parse_number (c : Cursor) : PRes ℚ :=
  match c.rest with
  | [] => (.error "Number expected. nothing found", c)
  | ch :: rest' =>
      if !ch.isDigit && ch != '-' then (.error "Number can not start with this character!", c)
      else if ch == '-' then
        match rest' with
        | [] => (.error "Number expected. nothing found", c.advance 1)
        | ch2 :: rest2 =>
            if !ch2.isDigit then (.error "Number can not start with this character!", c.advance 1)
            else
              match numBody false rest2 with
              | .ok s => (.ok (ratOfDecimal true (ch2 :: s)), c.advance (2 + s.length))
              | .error e => (.error e, c)
      else
        match numBody false rest' with
        | .ok s => (.ok (ratOfDecimal false (ch :: s)), c.advance (1 + s.length))
        | .error e => (.error e, c)

/-- `Operator::from_str`: upper-case the candidate and look it up in
the operator table (note: no LIKE — the source comments it out). -/
def operatorFromString (s : String) : Option Operator :=
  match toUpperAscii s with
  | "AND" => some .And
  | "OR" => some .Or
  | "IN" => some .In
  | "<" => some .Lt
  | "<=" => some .Lte
  | ">" => some .Gt
  | ">=" => some .Gte
  | "==" => some .Eq
  | "!=" => some .Neq
  | "+" => some .Plus
  | "-" => some .Minus
  | "*" => some .Multiply
  | "/" => some .Divide
  | "**" => some .Power
  | "//" => some .FloorDivide
  | _ => none

/-- `Operator::get_operator_first_chars().contains(c.to_ascii_uppercase())`. -/
def isOperatorFirstChar (ch : Char) : Bool :=
  ['A', 'O', 'I', '<', '>', '=', '!', '+', '-', '*', '/'].contains ch.toUpper

/-- The scanning loop of `try_parse_operator`: grow the candidate while
it still parses; emit the last parsed candidate; an alphabetic
candidate additionally demands whitespace (or end) after it, otherwise
the cursor is rewound (`back`) and an error returned.  Returns the
result and the net cursor movement. -/
def tryOperatorLoop (potential : List Char) (candidate : Option Operator)
    (consumed : Nat) : List Char → Except String Operator × Nat
  | [] =>
      match candidate with
      | some op => (.ok op, consumed)
      | none => (.error "Did not found operator!", consumed)
  | ch :: rest =>
      let potential2 := potential ++ [ch]
      match operatorFromString (String.mk potential2) with
      | some op2 => tryOperatorLoop potential2 (some op2) (consumed + 1) rest
      | none =>
          match candidate with
          | some op =>
              if (potential2.headD ' ').isAlpha && !ch.isWhitespace then
                (.error "Whitespace expected after alphabetic operator!",
                  consumed - (potential2.length - 1))
              else (.ok op, consumed)
          | none => tryOperatorLoop potential2 none (consumed + 1) rest

/-- `try_parse_operator`. -/
def try_parse_operator (c : Cursor) : PRes Operator :=
  match c.rest with
  | [] =>
      match tryOperatorLoop [] none 0 [] with
      | (res, n) => (res, c.advance n)
  | ch :: _ =>
      if !isOperatorFirstChar ch then
        (.error "No operator starts with this character!", c)
      else
        match tryOperatorLoop [] none 0 c.rest with
        | (res, n) => (res, c.advance n)

/-- `parse_keyword` (the keyword's characters in order,
case-insensitively unless `case_sensitive`); on a mismatch the cursor
stays at the offending character, past the matched prefix. -/
def parse_keyword (keyword : String) (case_sensitive : Bool) (c : Cursor) :
    PRes Unit :=
  go keyword.toList c
where
  go : List Char → Cursor → PRes Unit
    | [], c => (.ok (), c)
    | k :: ks, c =>
        match c.peek with
        | none => (.error ("Expected " ++ keyword ++ ", but the query ended!"), c)
        | some ch =>
            if (if case_sensitive then ch == k else ch.toLower == k.toLower) then
              go ks c.next
            else
              (.error ("Expected " ++ keyword ++ ", but instead found: " ++ String.mk [ch]), c)

/-- `parse_whitespaces`: skip whitespace. -/
def parse_whitespaces (c : Cursor) : Cursor :=
  c.advance (c.rest.takeWhile Char.isWhitespace).length

/-- `parse_mandatory_whitespace`: exactly one whitespace character. -/
def parse_mandatory_whitespace (c : Cursor) : Except String Cursor :=
  match c.peek with
  | none => .error "Expected a whitespace, but found nothing!"
  | some ch =>
      if ch.isWhitespace then .ok c.next
      else .error "Expected whitespace!"

/-- `parse_sort_direction`: try `ASC` then, from wherever that attempt
left the cursor, `DESC`. -/
def parse_sort_direction (c : Cursor) : PRes OrderDirection :=
  match parse_keyword "ASC" false c with
  | (.ok _, c2) => (.ok .ASC, c2)
  | (.error _, c2) =>
      match parse_keyword "DESC" false c2 with
      | (.ok _, c3) => (.ok .DESC, c3)
      | (.error e, c3) => (.error e, c3)

/-- `parse_field_value`: string, then number, then the unimplemented
bool. -/
def parse_field_value (c : Cursor) : PRes FieldValue :=
  match parse_string c with
  | (.ok s, c2) => (.ok (.string s), c2)
  | (.error _, _) =>
      match parse_number c with
      | (.ok n, c2) => (.ok (.number n), c2)
      | (.error _, _) =>
          match parse_bool c with
          | (.ok b, c2) => (.ok (.bool b), c2)
          | (.error _, _) => (.error "No field value found!", c)

/-- One function-call argument: an identifier (a Rust-`bool`-parsable
one becoming a boolean literal), or a field value. -/
def parseOneArg (c : Cursor) : PRes FunctionArg :=
  match parse_field_name c with
  | (.ok fname, c2) =>
      if fname = "true" then (.ok (.inr (.bool true)), c2)
      else if fname = "false" then (.ok (.inr (.bool false)), c2)
      else (.ok (.inl fname), c2)
  | (.error _, _) =>
      match parse_field_value c with
      | (.ok fv, c2) => (.ok (.inr fv), c2)
      | (.error e, c2) => (.error e, c2)

/-- The argument loop of `parse_function`.  The fuel exceeds the
remaining input wherever the loop is started, so its exhaustion branch
is unreachable. -/
def argLoop : Nat → List FunctionArg → Bool → Cursor → PRes (List FunctionArg)
  | 0, _, _, c => (.error "Parser fuel exhausted!", c)
  | fuel + 1, args, found_comma, c =>
      let c1 := parse_whitespaces c
      match c1.peek with
      | some ch =>
          if ch == ')' then
            if found_comma then (.error "Cant have close bracket after comma!", c1)
            else (.ok args, c1.next)
          else if !found_comma && !args.isEmpty then
            (.error "Expected comma or close bracket!", c1)
          else
            match parseOneArg c1 with
            | (.error e, c2) => (.error e, c2)
            | (.ok arg, c2) =>
                let c3 := parse_whitespaces c2
                match c3.peek with
                | some ch2 =>
                    if ch2 == ',' then argLoop fuel (args ++ [arg]) true c3.next
                    else argLoop fuel (args ++ [arg]) false c3
                | none => argLoop fuel (args ++ [arg]) false c3
      | none =>
          match parseOneArg c1 with
          | (.error e, c2) => (.error e, c2)
          | (.ok arg, c2) =>
              let c3 := parse_whitespaces c2
              match c3.peek with
              | some ch2 =>
                  if ch2 == ',' then argLoop fuel (args ++ [arg]) true c3.next
                  else argLoop fuel (args ++ [arg]) false c3
              | none => argLoop fuel (args ++ [arg]) false c3

/-- `parse_function`: the call name (given or parsed), `(`, a
comma-separated argument list, `)`. -/
def parse_function (func_name : Option String) (c : Cursor) : PRes Call :=
  match func_name with
  | some n => afterName n c
  | none =>
      match parse_field_name c with
      | (.ok n, c2) => afterName n c2
      | (.error e, c2) => (.error e, c2)
where
  afterName : String → Cursor → PRes Call
    | n, c =>
        match c.peek with
        | some ch =>
            if ch == '(' then
              match argLoop (c.deque.length + 2) [] false c.next with
              | (.ok args, c2) => (.ok ⟨n, args⟩, c2)
              | (.error e, c2) => (.error e, c2)
            else (.error "Expected open bracket!", c)
        | none => (.error "Expected open bracket, but found nothing", c)

/-- `parse_bool_field_name_or_function`: an identifier becomes a call
when `(` follows immediately, a boolean literal when it parses as a
Rust `bool` (exactly lowercase `true`/`false`), and a field reference
otherwise. -/
def parse_bool_field_name_or_function (c : Cursor) :
    PRes ExpressionElement :=
  match parse_field_name c with
  | (.error _, c2) => (.error "No Function, nor FieldName found!", c2)
  | (.ok fname, c2) =>
      match c2.peek with
      | some ch =>
          if ch == '(' then
            match parse_function (some fname) c2 with
            | (.ok func, c3) => (.ok (.Function func), c3)
            | (.error e, c3) => (.error e, c3)
          else boolOrField fname c2
      | none => boolOrField fname c2
where
  boolOrField : String → Cursor → PRes ExpressionElement
    | fname, c =>
        if fname = "true" then (.ok (.FieldValue (.bool true)), c)
        else if fname = "false" then (.ok (.FieldValue (.bool false)), c)
        else (.ok (.FieldName fname), c)

/-- The control points of the mutually recursive expression grammar
(`parse_expression`, `parse_bracket_expression` with its body past the
opening-bracket check, `parse_no_bracket_expression` with its operator
loop). -/
inductive ExprStage where
  | expression | bracketExpression | bracketBody | noBracketExpression
  | operatorLoop

/-- The expression parser, one step per stage transition (kept as a
single function so the recursion is structural on the fuel; the fuel
at every entry point exceeds four times the remaining input, so the
exhaustion branch is unreachable). -/
def parseExprGo : Nat → ExprStage → List ExpressionElement → Cursor →
    PRes (List ExpressionElement)
  | 0, _, _, c => (.error "Parser fuel exhausted!", c)
  | fuel + 1, stage, elems, c =>
      match stage with
      | .expression =>
          match c.peek with
          | none => (.error "Expected expression, but found nothing", c)
          | some ch =>
              match (if ch == '(' then parseExprGo fuel .bracketExpression elems c
                     else parseExprGo fuel .noBracketExpression elems c) with
              | (.ok elems2, c2) => (.ok elems2, parse_whitespaces c2)
              | (.error e, c2) => (.error e, c2)
      | .bracketExpression =>
          match c.peek with
          | some ch =>
              if ch == '(' then parseExprGo fuel .bracketBody elems c
              else (.error "Expected a open bracket!", c)
          | none => parseExprGo fuel .bracketBody elems c
      | .bracketBody =>
          let c1 := parse_whitespaces c.next
          match parseExprGo fuel .expression (elems ++ [.OpenedBracket]) c1 with
          | (.error e, c2) => (.error e, c2)
          | (.ok elems2, c2) =>
              match c2.peek with
              | none => (.error "Expected a close bracket, but found nothing", c2)
              | some ch =>
                  if ch != ')' then (.error "Expected a close bracket!", c2)
                  else
                    let c3 := parse_whitespaces c2.next
                    match try_parse_operator c3 with
                    | (.error _, c4) => (.ok (elems2 ++ [.ClosedBracket]), c4)
                    | (.ok op, c4) =>
                        parseExprGo fuel .expression
                          (elems2 ++ [.ClosedBracket, .Operator op])
                          (parse_whitespaces c4)
      | .noBracketExpression =>
          match parse_bool_field_name_or_function c with
          | (.ok el, c2) =>
              parseExprGo fuel .operatorLoop (elems ++ [el]) (parse_whitespaces c2)
          | (.error _, _) =>
              match parse_field_value c with
              | (.ok fv, c2) =>
                  parseExprGo fuel .operatorLoop (elems ++ [.FieldValue fv])
                    (parse_whitespaces c2)
              | (.error _, c2) =>
                  (.error "No FieldValue, Function, nor FieldName found!", c2)
      | .operatorLoop =>
          match try_parse_operator c with
          | (.error _, c2) => (.ok elems, c2)
          | (.ok op, c2) =>
              match parseExprGo fuel .expression (elems ++ [.Operator op])
                  (parse_whitespaces c2) with
              | (.ok elems2, c3) => parseExprGo fuel .operatorLoop elems2 c3
              | (.error e, c3) => (.error e, c3)

/-- `parse_expression`. -/
def parse_expression (fuel : Nat) (elems : List ExpressionElement) (c : Cursor) :
    PRes (List ExpressionElement) :=
  parseExprGo fuel .expression elems c

/-- `parse_select`: the SELECT keyword, mandatory whitespace, and a
comma-separated field list. -/
def parse_select (c : Cursor) : PRes (List String) :=
  match parse_keyword "SELECT" false c with
  | (.error e, c2) => (.error e, c2)
  | (.ok _, c2) =>
      match parse_mandatory_whitespace c2 with
      | .error e => (.error e, c2)
      | .ok c3 => selLoop (c3.deque.length + 2) [] c3
where
  selLoop : Nat → List String → Cursor → PRes (List String)
    | 0, _, c => (.error "Parser fuel exhausted!", c)
    | fuel + 1, fields, c =>
        let c := parse_whitespaces c
        match parse_field_name c with
        | (.error e, c2) => (.error e, c2)
        | (.ok fname, c2) =>
            let c3 := parse_whitespaces c2
            match c3.peek with
            | some ch =>
                if ch != ',' then (.ok (fields ++ [fname]), c3)
                else selLoop fuel (fields ++ [fname]) c3.next
            | none => (.ok (fields ++ [fname]), c3)

/-- `parse_from`: the FROM keyword, whitespace, and one call. -/
def parse_from (c : Cursor) : PRes Call :=
  match parse_keyword "FROM" false c with
  | (.error e, c2) => (.error e, c2)
  | (.ok _, c2) =>
      match parse_mandatory_whitespace c2 with
      | .error e => (.error e, c2)
      | .ok c3 => parse_function none (parse_whitespaces c3)

/-- `parse_where`: the WHERE keyword, whitespace, and one expression. -/
def parse_where (c : Cursor) : PRes (List ExpressionElement) :=
  match parse_keyword "WHERE" false c with
  | (.error e, c2) => (.error e, c2)
  | (.ok _, c2) =>
      match parse_mandatory_whitespace c2 with
      | .error e => (.error e, c2)
      | .ok c3 =>
          parse_expression (4 * c3.deque.length + 8) [] (parse_whitespaces c3)

/-- `parse_order_by`: the ORDER BY keyword and a comma-separated list
of fields with optional directions. -/
def parse_order_by (c : Cursor) : PRes (List OrderByFieldOption) :=
  match parse_keyword "ORDER BY" false c with
  | (.error e, c2) => (.error e, c2)
  | (.ok _, c2) =>
      match parse_mandatory_whitespace c2 with
      | .error e => (.error e, c2)
      | .ok c3 => obLoop (c3.deque.length + 2) [] c3
where
  obLoop : Nat → List OrderByFieldOption → Cursor → PRes (List OrderByFieldOption)
    | 0, _, c => (.error "Parser fuel exhausted!", c)
    | fuel + 1, opts, c =>
        let c := parse_whitespaces c
        match parse_field_name c with
        | (.error e, c2) => (.error e, c2)
        | (.ok fname, c2) =>
            let c3 := parse_whitespaces c2
            match c3.peek with
            | some ch =>
                if ch != ',' then
                  match parse_sort_direction c3 with
                  | (.error e, c4) => (.error e, c4)
                  | (.ok dir, c4) => afterField fuel opts fname dir c4
                else afterField fuel opts fname .ASC c3
            | none => afterField fuel opts fname .ASC c3
  afterField : Nat → List OrderByFieldOption → String → OrderDirection →
      Cursor → PRes (List OrderByFieldOption)
    | fuel, opts, fname, dir, c =>
        match c.peek with
        | some ch =>
            if ch != ',' then (.ok (opts ++ [⟨fname, dir⟩]), c)
            else obLoop fuel (opts ++ [⟨fname, dir⟩]) c.next
        | none => (.ok (opts ++ [⟨fname, dir⟩]), c)

/-- The parsed query plan (`Query` in `src/libs/parser.rs`). -/
structure Query where
  select_fields : List String
  from_function : Option Call
  where_expression : List ExpressionElement
  order_by_fields : List OrderByFieldOption
deriving Repr

/-- `Query::from_str`: SELECT first (unconditionally), then FROM when
the next character is `f`/`F`, a mandatory whitespace check, WHERE when
the next character is `w`/`W`, and ORDER BY when it is `o`/`O`;
trailing garbage is ignored (the check is commented out in the
source).  Stage errors keep the source's message prefixes; the cursor
display appended to the messages is not modelled. -/
def fromStr (query : String) : Except String Query :=
  let c := Cursor.fromString query
  match parse_select c with
  | (.error e, _) => .error ("Error parsing SELECT: " ++ e)
  | (.ok select_fields, c) =>
      match fromStage c with
      | .error e => .error e
      | .ok (from_function, c) =>
          match
            (if !c.atEnd && from_function.isSome then
              match parse_mandatory_whitespace c with
              | .error e => .error e
              | .ok c2 => .ok c2
            else .ok c : Except String Cursor) with
          | .error e => .error e
          | .ok c =>
              let c := parse_whitespaces c
              match whereStage c with
              | .error e => .error e
              | .ok (where_expression, c) =>
                  let c := parse_whitespaces c
                  match orderStage c with
                  | .error e => .error e
                  | .ok (order_by_fields, _) =>
                      .ok ⟨select_fields, from_function, where_expression,
                        order_by_fields⟩
where
  fromStage (c : Cursor) : Except String (Option Call × Cursor) :=
    match c.peek with
    | some ch =>
        if ch == 'f' || ch == 'F' then
          match parse_from c with
          | (.error e, _) => .error ("Error parsing FROM: " ++ e)
          | (.ok ff, c2) => .ok (some ff, c2)
        else .ok (none, c)
    | none => .ok (none, c)
  whereStage (c : Cursor) : Except String (List ExpressionElement × Cursor) :=
    match c.peek with
    | some ch =>
        if ch == 'w' || ch == 'W' then
          match parse_where c with
          | (.error e, _) => .error ("Error parsing WHERE: " ++ e)
          | (.ok we, c2) => .ok (we, c2)
        else .ok ([], c)
    | none => .ok ([], c)
  orderStage (c : Cursor) : Except String (List OrderByFieldOption × Cursor) :=
    match c.peek with
    | some ch =>
        if ch == 'o' || ch == 'O' then
          match parse_order_by c with
          | (.error e, _) => .error ("Error parsing ORDER BY: " ++ e)
          | (.ok ob, c2) => .ok (ob, c2)
        else .ok ([], c)
    | none => .ok ([], c)

/-- The observable outcome of `execute_query`: a result, an error, or a
panic (the source calls `Option::unwrap` on the FROM function). -/
inductive ExecOutcome where
  | done : List String → List Pod → ExecOutcome
  | failed : String → ExecOutcome
  | panicked : ExecOutcome
deriving Repr

/-- `execute_query` (`executor.rs`), with the data fetcher (filesystem
walk) abstracted as `fetch`: parse the query, apply the SELECT /
include-fields / FROM overrides (each re-parsed through the parser
sub-grammars), then FROM (unwrap! — a missing FROM panics), WHERE,
ORDER BY, SELECT. -/
def execute_query (fetch : Call → Except String (List Pod))
    (compile : RegexEngine) (query : String)
    (select fromOverride include_fields : Option String) : ExecOutcome :=
  match fromStr query with
  | .error e => .failed e
  | .ok q0 =>
      match
        (match select with
        | none => .ok q0
        | some sq =>
            match parse_select (Cursor.fromString ("SELECT " ++ sq)) with
            | (.ok sf, _) => .ok { q0 with select_fields := sf }
            | (.error e, _) => .error ("Error parsing SELECT: " ++ e)
          : Except String Query) with
      | .error e => .failed e
      | .ok q1 =>
          match
            (match include_fields with
            | none => .ok q1
            | some inc =>
                match parse_select (Cursor.fromString ("SELECT " ++ inc)) with
                | (.ok isf, _) =>
                    .ok { q1 with select_fields :=
                      isf ++ q1.select_fields.filter (fun s => !isf.contains s) }
                | (.error e, _) => .error ("Error parsing SELECT: " ++ e)
              : Except String Query) with
          | .error e => .failed e
          | .ok q2 =>
              match
                (match fromOverride with
                | none => .ok q2
                | some fq =>
                    match parse_from (Cursor.fromString ("FROM " ++ fq)) with
                    | (.ok ff, _) => .ok { q2 with from_function := some ff }
                    | (.error e, _) => .error ("Error parsing FROM: " ++ e)
                  : Except String Query) with
              | .error e => .failed e
              | .ok q =>
                  match q.from_function with
                  | none => .panicked
                  | some ff =>
                      match fetch ff with
                      | .error e => .failed e
                      | .ok data =>
                          match execute_where compile q.where_expression data with
                          | .error e => .failed e
                          | .ok data =>
                              let data := execute_order_by q.order_by_fields data
                              let data := execute_select q.select_fields data
                              .done q.select_fields data

/-- C5 counterexample: the parser does not accept a query with only a
WHERE clause — `Query::from_str` unconditionally parses SELECT first
and rejects the query with a SELECT parse error; and for a query that
does parse without a FROM clause, execution panics on
`from_function.unwrap()` instead of failing with an ArgumentError. -/
theorem where_only_query_rejected_counterexample :
    fromStr "WHERE field1 == 4" =
      .error "Error parsing SELECT: Expected SELECT, but instead found: W"
    ∧ execute_query (fun _ => .ok []) noRegex "SELECT field1 WHERE field1 == 4"
        none none none = .panicked :=
  ⟨rfl, rfl⟩

/-- C5 (amended): a query with only a WHERE clause is rejected by the
parser with a SELECT parse error, and `execute_query` (under every
data fetcher and regex engine, with no overrides) returns that parse
error — not an ArgumentError — without panicking. -/
theorem where_only_query_fails_at_parse :
    ∀ (fetch : Call → Except String (List Pod)) (compile : RegexEngine),
      fromStr "WHERE field1 == 4" =
        .error "Error parsing SELECT: Expected SELECT, but instead found: W"
      ∧ execute_query fetch compile "WHERE field1 == 4" none none none =
          .failed "Error parsing SELECT: Expected SELECT, but instead found: W" :=
  fun _ _ => ⟨rfl, rfl⟩

/-- C7 counterexample: the identifiers `TRUE`, `True` and `FALSE` are
parsed as field references, not boolean literals — `from_str`'s
`field_name.parse::<bool>()` only accepts lowercase. -/
theorem uppercase_bool_is_field_name_counterexample :
    (parse_bool_field_name_or_function (Cursor.fromString "TRUE ")).1 =
      .ok (.FieldName "TRUE")
    ∧ (parse_bool_field_name_or_function (Cursor.fromString "True ")).1 =
      .ok (.FieldName "True")
    ∧ (parse_bool_field_name_or_function (Cursor.fromString "FALSE ")).1 =
      .ok (.FieldName "FALSE")
    ∧ (parse_bool_field_name_or_function (Cursor.fromString "true ")).1 =
      .ok (.FieldValue (.bool true)) :=
  ⟨rfl, rfl, rfl, rfl⟩

/-- C7 (amended): exactly the lowercase identifiers `true` and `false`,
when parsed as a primary and not followed by an identifier character or
an opening bracket, are emitted as boolean literals; every other letter
case yields a field reference. -/
theorem lowercase_bool_literal :
    ∀ (tail : List Char),
      (tail = [] ∨ ∃ ch rest, tail = ch :: rest ∧ ch ≠ '(' ∧ isIdentChar ch = false) →
      (parse_bool_field_name_or_function ⟨'t' :: 'r' :: 'u' :: 'e' :: tail, 0⟩).1 =
        .ok (.FieldValue (.bool true))
      ∧ (parse_bool_field_name_or_function
          ⟨'f' :: 'a' :: 'l' :: 's' :: 'e' :: tail, 0⟩).1 =
        .ok (.FieldValue (.bool false)) := by
  intro tail h
  rcases h with h | ⟨ch, rest, h, hpar, hid⟩
  · subst h
    exact ⟨rfl, rfl⟩
  · subst h
    constructor
    · simp [parse_bool_field_name_or_function, parse_field_name, Cursor.rest,
        identTail, hid, Cursor.advance, Cursor.peek, hpar,
        parse_bool_field_name_or_function.boolOrField,
        show isIdentChar 'r' = true from rfl, show isIdentChar 'u' = true from rfl,
        show isIdentChar 'e' = true from rfl]
    · simp [parse_bool_field_name_or_function, parse_field_name, Cursor.rest,
        identTail, hid, Cursor.advance, Cursor.peek, hpar,
        parse_bool_field_name_or_function.boolOrField,
        show isIdentChar 'a' = true from rfl, show isIdentChar 'l' = true from rfl,
        show isIdentChar 's' = true from rfl, show isIdentChar 'e' = true from rfl]

theorem lowercase_bool_literal_witness :
    ((' ' :: []) = [] ∨ ∃ ch rest, (' ' :: []) = ch :: rest ∧ ch ≠ '(' ∧
        isIdentChar ch = false)
    ∧ ((parse_bool_field_name_or_function ⟨'t' :: 'r' :: 'u' :: 'e' :: [' '], 0⟩).1 =
        .ok (.FieldValue (.bool true))
      ∧ (parse_bool_field_name_or_function
          ⟨'f' :: 'a' :: 'l' :: 's' :: 'e' :: [' '], 0⟩).1 =
        .ok (.FieldValue (.bool false))) :=
  ⟨Or.inr ⟨' ', [], rfl, by decide, rfl⟩,
   lowercase_bool_literal [' '] (Or.inr ⟨' ', [], rfl, by decide, rfl⟩)⟩

end Krafna
